import Mathlib

/-!
# Texas Hold'em hand evaluation: a verification development

A shallow embedding of `poker_project_with_cpp.cpp`: the card model, the
`EvalResult` comparison operators, `HandEvaluator::checkFlush`,
`HandEvaluator::checkStraight`, `HandEvaluator::evaluateFive`,
`HandEvaluator::getBestFive`, the `Deck` constructor and `Deck::draw`, and the
winner determination of `main`, followed by theorems about them.

Modelling conventions.
* `enum Rank` and the `int` tie-break values are integers: a rank is a `Nat`
  (`TWO = 2`, ..., `ACE = 14`), a tie-break value is an `Int`.
* A `std::vector` is a `List`; an index read `v[i]` is `v[i]?`, and a function
  that reads an index out of range returns `none`.
* `std::sort` is insertion sort with the comparator of the source.  The
  standard leaves the relative order of equivalent elements open; the theorems
  on `evaluateFive` show that the result does not depend on it.
* The `do ... while (std::prev_permutation(...))` loop carries a fuel counter
  and returns `none` when the fuel runs out.
* `std::shuffle` is an arbitrary permutation of the sequence it is given.
* A call of `Deck::draw` has one of three outcomes: a card, a reported
  exhausted-deck failure, or undefined behaviour.
-/

namespace Poker

/-! ## Basic structures -/

/-- Source: `enum Suit { SPADES, HEARTS, DIAMONDS, CLUBS }`. -/
inductive Suit where
  | SPADES
  | HEARTS
  | DIAMONDS
  | CLUBS
  deriving DecidableEq, Repr

/-- Source: the integer value of a `Suit` enumerator (declaration order, from 0). -/
def Suit.toNat : Suit → Nat
  | .SPADES => 0
  | .HEARTS => 1
  | .DIAMONDS => 2
  | .CLUBS => 3

/-! Source: `enum Rank { TWO = 2, THREE, ..., KING, ACE }`, an integer-valued
enumeration.  A rank is a `Nat` and the enumerators are the constants below. -/

abbrev TWO : Nat := 2
abbrev THREE : Nat := 3
abbrev FOUR : Nat := 4
abbrev FIVE : Nat := 5
abbrev SIX : Nat := 6
abbrev SEVEN : Nat := 7
abbrev EIGHT : Nat := 8
abbrev NINE : Nat := 9
abbrev TEN : Nat := 10
abbrev JACK : Nat := 11
abbrev QUEEN : Nat := 12
abbrev KING : Nat := 13
abbrev ACE : Nat := 14

/-- Source: `enum HandRank { HIGH_CARD, ONE_PAIR, ..., ROYAL_FLUSH }`. -/
inductive HandRank where
  | HIGH_CARD
  | ONE_PAIR
  | TWO_PAIR
  | THREE_OF_A_KIND
  | STRAIGHT
  | FLUSH
  | FULL_HOUSE
  | FOUR_OF_A_KIND
  | STRAIGHT_FLUSH
  | ROYAL_FLUSH
  deriving DecidableEq, Repr

/-- The integer value of a `HandRank` enumerator (declaration order, from 0). -/
def HandRank.toNat : HandRank → Nat
  | .HIGH_CARD => 0
  | .ONE_PAIR => 1
  | .TWO_PAIR => 2
  | .THREE_OF_A_KIND => 3
  | .STRAIGHT => 4
  | .FLUSH => 5
  | .FULL_HOUSE => 6
  | .FOUR_OF_A_KIND => 7
  | .STRAIGHT_FLUSH => 8
  | .ROYAL_FLUSH => 9

/-- Source: `struct Card { Rank rank; Suit suit; }`. -/
structure Card where
  rank : Nat
  suit : Suit
  deriving DecidableEq, Repr

/-- Source: `struct EvalResult { HandRank handType; std::vector<int> values; }`. -/
structure EvalResult where
  handType : HandRank
  values : List Int
  deriving DecidableEq, Repr

/-- The comparison `a < b` of two `std::vector<int>`, which is
`std::lexicographical_compare`: the first differing element decides, and a
proper prefix is smaller. -/
def vectorLess : List Int → List Int → Bool
  | [], [] => false
  | [], _ :: _ => true
  | _ :: _, [] => false
  | a :: as, b :: bs =>
    if a < b then true else if b < a then false else vectorLess as bs

/-- Source: `EvalResult::operator>`.  `values > other.values` on vectors is
`other.values < values`. -/
def EvalResult.gt (a b : EvalResult) : Bool :=
  if a.handType ≠ b.handType then decide (a.handType.toNat > b.handType.toNat)
  else vectorLess b.values a.values

/-- Source: `EvalResult::operator==`. -/
def EvalResult.eq (a b : EvalResult) : Bool :=
  decide (a.handType = b.handType) && decide (a.values = b.values)

/-! ## `std::sort` -/

/-- Insert `x` in front of the first element that `x` goes before. -/
def insertSorted {α : Type} (comp : α → α → Bool) (x : α) : List α → List α
  | [] => [x]
  | y :: ys => if comp x y then x :: y :: ys else y :: insertSorted comp x ys

/-- Model of `std::sort(first, last, comp)`: insertion sort. -/
def stdSort {α : Type} (comp : α → α → Bool) : List α → List α
  | [] => []
  | x :: xs => insertSorted comp x (stdSort comp xs)

/-! ## HandEvaluator -/

/-- Source: `HandEvaluator::checkFlush`. -/
def checkFlush : List Card → Bool
  | [] => true
  | c0 :: rest => rest.all (fun c => decide (c.suit = c0.suit))

/-- The first loop of `checkStraight`: every card is one rank above the next. -/
def isNormalStraight : List Card → Bool
  | [] => true
  | a :: rest =>
    match rest with
    | [] => true
    | b :: _ => if a.rank ≠ b.rank + 1 then false else isNormalStraight rest

/-- Source: `HandEvaluator::checkStraight`.  On an empty hand `hand.size() - 1`
wraps around and the loop reads out of range: `none`.  The wheel test reads
`hand[0]` to `hand[4]` left to right and stops at the first failed comparison. -/
def checkStraight (hand : List Card) : Option Bool :=
  if hand.length = 0 then none
  else if isNormalStraight hand then some true
  else
    (hand[0]?).bind fun h0 =>
    if h0.rank ≠ ACE then some false else
    (hand[1]?).bind fun h1 =>
    if h1.rank ≠ FIVE then some false else
    (hand[2]?).bind fun h2 =>
    if h2.rank ≠ FOUR then some false else
    (hand[3]?).bind fun h3 =>
    if h3.rank ≠ THREE then some false else
    (hand[4]?).bind fun h4 =>
    if h4.rank ≠ TWO then some false else some true

/-- The statement `counts[r]++` on a `std::map<Rank, int>`, kept as a list of
(rank, count) pairs in ascending rank order. -/
def mapIncrement (r : Nat) : List (Nat × Nat) → List (Nat × Nat)
  | [] => [(r, 1)]
  | (k, n) :: rest =>
    if r < k then (r, 1) :: (k, n) :: rest
    else if r = k then (k, n + 1) :: rest
    else (k, n) :: mapIncrement r rest

/-- Source: `for (const auto& c : hand) counts[c.rank]++;` followed by the
copy of the map, in key order, into `freq`. -/
def countRanks (hand : List Card) : List (Nat × Nat) :=
  hand.foldl (fun counts c => mapIncrement c.rank counts) []

/-- The comparator of the sort of `freq`: count descending, then rank
descending. -/
def freqBefore (a b : Nat × Nat) : Bool :=
  if a.2 ≠ b.2 then decide (a.2 > b.2) else decide (a.1 > b.1)

/-- The comparator of the sort of the hand: rank descending. -/
def rankBefore (a b : Card) : Bool := decide (a.rank > b.rank)

/-- The body of `evaluateFive` after the hand has been sorted. -/
def evaluateSorted (hand : List Card) : Option EvalResult :=
  let isFlush := checkFlush hand
  (checkStraight hand).bind fun isStraight =>
  let freq := stdSort freqBefore (countRanks hand)
  if isFlush && isStraight then
    (hand[0]?).bind fun h0 =>
    (if h0.rank = ACE then (hand[4]?).map (fun h4 => decide (h4.rank = TEN))
     else some false).bind fun isRoyal =>
    some ⟨if isRoyal then .ROYAL_FLUSH else .STRAIGHT_FLUSH, [(h0.rank : Int)]⟩
  else
    (freq[0]?).bind fun f0 =>
    if f0.2 = 4 then
      (freq[1]?).bind fun f1 =>
      some ⟨.FOUR_OF_A_KIND, [(f0.1 : Int), (f1.1 : Int)]⟩
    else
    (if f0.2 = 3 then (freq[1]?).map (fun f1 => decide (f1.2 = 2))
     else some false).bind fun isFull =>
    if isFull then
      (freq[1]?).bind fun f1 =>
      some ⟨.FULL_HOUSE, [(f0.1 : Int), (f1.1 : Int)]⟩
    else if isFlush then
      (hand[0]?).bind fun h0 =>
      (hand[1]?).bind fun h1 =>
      (hand[2]?).bind fun h2 =>
      (hand[3]?).bind fun h3 =>
      (hand[4]?).bind fun h4 =>
      some ⟨.FLUSH, [(h0.rank : Int), (h1.rank : Int), (h2.rank : Int),
                     (h3.rank : Int), (h4.rank : Int)]⟩
    else if isStraight then
      (hand[0]?).bind fun h0 =>
      some ⟨.STRAIGHT, [(h0.rank : Int)]⟩
    else if f0.2 = 3 then
      (freq[1]?).bind fun f1 =>
      (freq[2]?).bind fun f2 =>
      some ⟨.THREE_OF_A_KIND, [(f0.1 : Int), (f1.1 : Int), (f2.1 : Int)]⟩
    else
    (if f0.2 = 2 then (freq[1]?).map (fun f1 => decide (f1.2 = 2))
     else some false).bind fun isTwoPair =>
    if isTwoPair then
      (freq[1]?).bind fun f1 =>
      (freq[2]?).bind fun f2 =>
      some ⟨.TWO_PAIR, [(f0.1 : Int), (f1.1 : Int), (f2.1 : Int)]⟩
    else if f0.2 = 2 then
      (freq[1]?).bind fun f1 =>
      (freq[2]?).bind fun f2 =>
      (freq[3]?).bind fun f3 =>
      some ⟨.ONE_PAIR, [(f0.1 : Int), (f1.1 : Int), (f2.1 : Int), (f3.1 : Int)]⟩
    else
      (hand[0]?).bind fun h0 =>
      (hand[1]?).bind fun h1 =>
      (hand[2]?).bind fun h2 =>
      (hand[3]?).bind fun h3 =>
      (hand[4]?).bind fun h4 =>
      some ⟨.HIGH_CARD, [(h0.rank : Int), (h1.rank : Int), (h2.rank : Int),
                         (h3.rank : Int), (h4.rank : Int)]⟩

/-- Source: `HandEvaluator::evaluateFive`: sort the hand by rank descending,
then classify it. -/
def evaluateFive (hand : List Card) : Option EvalResult :=
  evaluateSorted (stdSort rankBefore hand)

/-! ## `std::prev_permutation` and `getBestFive` -/

/-- Scan `i` downwards from `k - 1` for the first position with
`a[i + 1] < a[i]`. -/
def findPivot (a : List Nat) : Nat → Option Nat
  | 0 => none
  | k + 1 => if a.getD (k + 1) 0 < a.getD k 0 then some k else findPivot a k

/-- Scan `j` downwards from `k` for the first position with `a[j] < pivot`. -/
def findSwap (a : List Nat) (pivot : Nat) : Nat → Nat
  | 0 => 0
  | j + 1 => if a.getD (j + 1) 0 < pivot then j + 1 else findSwap a pivot j

/-- Model of `std::prev_permutation(first, last)`: the returned flag and the
sequence it leaves.  With no position `i` such that `a[i + 1] < a[i]` the
sequence is reversed and the flag is `false`; otherwise the rightmost such
`a[i]` is swapped with the rightmost smaller element and the part after `i` is
reversed. -/
def prevPermutation (a : List Nat) : Bool × List Nat :=
  if a.length < 2 then (false, a)
  else
    match findPivot a (a.length - 1) with
    | none => (false, a.reverse)
    | some i =>
      let j := findSwap a (a.getD i 0) (a.length - 1)
      let swapped := (a.set i (a.getD j 0)).set j (a.getD i 0)
      (true, swapped.take (i + 1) ++ (swapped.drop (i + 1)).reverse)

/-- The inner loop of `getBestFive`:
`for (int i = 0; i < 7; ++i) if (bitmask[i]) current.push_back(seven[i]);`. -/
def selectCards (seven : List Card) (bitmask : List Nat) : Option (List Card) :=
  (List.range 7).foldlM
    (fun current i =>
      if bitmask.getD i 0 ≠ 0 then (seven[i]?).map (fun c => current ++ [c])
      else some current)
    []

/-- The `do ... while (std::prev_permutation(bitmask))` loop of `getBestFive`,
with a bound on the number of iterations. -/
def getBestFiveLoop (seven : List Card) : Nat → List Nat → EvalResult → Option EvalResult
  | 0, _, _ => none
  | fuel + 1, bitmask, best =>
    (selectCards seven bitmask).bind fun current =>
    (evaluateFive current).bind fun res =>
    let best1 := if res.gt best then res else best
    match prevPermutation bitmask with
    | (true, next) => getBestFiveLoop seven fuel next best1
    | (false, _) => some best1

/-- The initial candidate of `getBestFive`: `{HIGH_CARD, {0}}`. -/
def initialBest : EvalResult := ⟨.HIGH_CARD, [0]⟩

/-- The initial bit mask of `getBestFive`: five ones followed by two zeros. -/
def initialMask : List Nat := List.replicate 5 1 ++ List.replicate 2 0

/-- Source: `HandEvaluator::getBestFive`.  A seven-character string has at most
`2 ^ 7` arrangements of zeros and ones, which bounds the loop. -/
def getBestFive (seven : List Card) : Option EvalResult :=
  getBestFiveLoop seven 128 initialMask initialBest

/-! ## A decision table for sorted hands

`classifySorted` states, for five ranks in descending order and the flush
flag, the category and the tie-break vector in closed form.  It is not part of
the source; `evaluateSorted_table` below proves that `evaluateSorted` computes
exactly this table, and the theorems on `evaluateFive` are derived from it. -/

/-- Closed form of the result of `evaluateSorted` on a hand whose ranks are
`r1 ≥ r2 ≥ r3 ≥ r4 ≥ r5`, with `fl` the value of `checkFlush`. -/
def classifySorted (fl : Bool) (r1 r2 r3 r4 r5 : Nat) : EvalResult :=
  if fl = true ∧ ((r1 = r2 + 1 ∧ r2 = r3 + 1 ∧ r3 = r4 + 1 ∧ r4 = r5 + 1) ∨
      (r1 = 14 ∧ r2 = 5 ∧ r3 = 4 ∧ r4 = 3 ∧ r5 = 2)) then
    ⟨if r1 = 14 ∧ r5 = 10 then .ROYAL_FLUSH else .STRAIGHT_FLUSH, [(r1 : Int)]⟩
  else if r1 = r4 ∧ r4 ≠ r5 then ⟨.FOUR_OF_A_KIND, [(r1 : Int), (r5 : Int)]⟩
  else if r2 = r5 ∧ r1 ≠ r2 then ⟨.FOUR_OF_A_KIND, [(r2 : Int), (r1 : Int)]⟩
  else if r1 = r3 ∧ r4 = r5 ∧ r3 ≠ r4 then ⟨.FULL_HOUSE, [(r1 : Int), (r4 : Int)]⟩
  else if r1 = r2 ∧ r3 = r5 ∧ r2 ≠ r3 then ⟨.FULL_HOUSE, [(r3 : Int), (r1 : Int)]⟩
  else if fl = true then
    ⟨.FLUSH, [(r1 : Int), (r2 : Int), (r3 : Int), (r4 : Int), (r5 : Int)]⟩
  else if (r1 = r2 + 1 ∧ r2 = r3 + 1 ∧ r3 = r4 + 1 ∧ r4 = r5 + 1) ∨
      (r1 = 14 ∧ r2 = 5 ∧ r3 = 4 ∧ r4 = 3 ∧ r5 = 2) then
    ⟨.STRAIGHT, [(r1 : Int)]⟩
  else if r1 = r5 then
    ⟨.HIGH_CARD, [(r1 : Int), (r2 : Int), (r3 : Int), (r4 : Int), (r5 : Int)]⟩
  else if r1 = r3 then ⟨.THREE_OF_A_KIND, [(r1 : Int), (r4 : Int), (r5 : Int)]⟩
  else if r2 = r4 then ⟨.THREE_OF_A_KIND, [(r2 : Int), (r1 : Int), (r5 : Int)]⟩
  else if r3 = r5 then ⟨.THREE_OF_A_KIND, [(r3 : Int), (r1 : Int), (r2 : Int)]⟩
  else if r1 = r2 ∧ r3 = r4 then ⟨.TWO_PAIR, [(r1 : Int), (r3 : Int), (r5 : Int)]⟩
  else if r1 = r2 ∧ r4 = r5 then ⟨.TWO_PAIR, [(r1 : Int), (r4 : Int), (r3 : Int)]⟩
  else if r2 = r3 ∧ r4 = r5 then ⟨.TWO_PAIR, [(r2 : Int), (r4 : Int), (r1 : Int)]⟩
  else if r1 = r2 then ⟨.ONE_PAIR, [(r1 : Int), (r3 : Int), (r4 : Int), (r5 : Int)]⟩
  else if r2 = r3 then ⟨.ONE_PAIR, [(r2 : Int), (r1 : Int), (r4 : Int), (r5 : Int)]⟩
  else if r3 = r4 then ⟨.ONE_PAIR, [(r3 : Int), (r1 : Int), (r2 : Int), (r5 : Int)]⟩
  else if r4 = r5 then ⟨.ONE_PAIR, [(r4 : Int), (r1 : Int), (r2 : Int), (r3 : Int)]⟩
  else ⟨.HIGH_CARD, [(r1 : Int), (r2 : Int), (r3 : Int), (r4 : Int), (r5 : Int)]⟩

/-! ## The bit-mask loop as a fold

Proof devices: the sequence of masks that `std::prev_permutation` produces and
the loop of `getBestFive` run over a given list of masks. -/

/-- The visited masks: `prevPermutation` iterated from `m` until it returns `false`. -/
def maskRun : Nat → List Nat → Option (List (List Nat))
  | 0, _ => none
  | fuel + 1, m =>
    match prevPermutation m with
    | (true, next) => (maskRun fuel next).map (fun ms => m :: ms)
    | (false, _) => some [m]

/-- The loop of `getBestFive` over a given list of masks. -/
def foldMasks (seven : List Card) : List (List Nat) → EvalResult → Option EvalResult
  | [], best => some best
  | m :: ms, best =>
    (selectCards seven m).bind fun current =>
    (evaluateFive current).bind fun res =>
    foldMasks seven ms (if res.gt best then res else best)

/-- The 21 masks that the loop of `getBestFive` visits, in order. -/
def masks21 : List (List Nat) :=
  [[1, 1, 1, 1, 1, 0, 0], [1, 1, 1, 1, 0, 1, 0], [1, 1, 1, 1, 0, 0, 1], [1, 1, 1, 0, 1, 1, 0],
   [1, 1, 1, 0, 1, 0, 1], [1, 1, 1, 0, 0, 1, 1], [1, 1, 0, 1, 1, 1, 0], [1, 1, 0, 1, 1, 0, 1],
   [1, 1, 0, 1, 0, 1, 1], [1, 1, 0, 0, 1, 1, 1], [1, 0, 1, 1, 1, 1, 0], [1, 0, 1, 1, 1, 0, 1],
   [1, 0, 1, 1, 0, 1, 1], [1, 0, 1, 0, 1, 1, 1], [1, 0, 0, 1, 1, 1, 1], [0, 1, 1, 1, 1, 1, 0],
   [0, 1, 1, 1, 1, 0, 1], [0, 1, 1, 1, 0, 1, 1], [0, 1, 1, 0, 1, 1, 1], [0, 1, 0, 1, 1, 1, 1],
   [0, 0, 1, 1, 1, 1, 1]]

/-! ## Rank occurrences

The vocabulary of the statement on tie-break vectors. -/

/-- The number of occurrences each entry of the tie-break vector must have, by category. -/
def tieBreakCounts : HandRank → List Nat
  | .FOUR_OF_A_KIND => [4, 1]
  | .FULL_HOUSE => [3, 2]
  | .THREE_OF_A_KIND => [3, 1, 1]
  | .TWO_PAIR => [2, 2, 1]
  | .ONE_PAIR => [2, 1, 1, 1]
  | .FLUSH => [1, 1, 1, 1, 1]
  | .HIGH_CARD => [1, 1, 1, 1, 1]
  | _ => []

/-- The ranks of a hand as tie-break values. -/
def rankValues (hand : List Card) : List Int := hand.map (fun c => (c.rank : Int))

/-- The number of cards of the hand that have rank `x`. -/
def occurrences (hand : List Card) (x : Int) : Nat := (rankValues hand).count x

/-! ## Example hands -/

/-- The seven cards of the end-to-end example: hole cards 7♥ 8♥, board 9♥ 6♥ 5♦ 2♣ K♦. -/
def exampleSeven : List Card :=
  [⟨SEVEN, .HEARTS⟩, ⟨EIGHT, .HEARTS⟩, ⟨NINE, .HEARTS⟩, ⟨SIX, .HEARTS⟩, ⟨FIVE, .DIAMONDS⟩,
   ⟨TWO, .CLUBS⟩, ⟨KING, .DIAMONDS⟩]

/-- A wheel with mixed suits: A♠ 5♥ 4♦ 3♣ 2♠. -/
def wheelHand : List Card :=
  [⟨ACE, .SPADES⟩, ⟨FIVE, .HEARTS⟩, ⟨FOUR, .DIAMONDS⟩, ⟨THREE, .CLUBS⟩, ⟨TWO, .SPADES⟩]

/-- A six-high straight with mixed suits: 6♠ 5♥ 4♦ 3♣ 2♠. -/
def sixHighHand : List Card :=
  [⟨SIX, .SPADES⟩, ⟨FIVE, .HEARTS⟩, ⟨FOUR, .DIAMONDS⟩, ⟨THREE, .CLUBS⟩, ⟨TWO, .SPADES⟩]

/-- The five cards A, 2, 3, 4, 5 of one suit. -/
def wheelFlush (s : Suit) : List Card :=
  [⟨ACE, s⟩, ⟨TWO, s⟩, ⟨THREE, s⟩, ⟨FOUR, s⟩, ⟨FIVE, s⟩]

/-! ## Deck -/

/-- The cast `(Suit)s` of the loop variable of the `Deck` constructor, which runs over
`0, 1, 2, 3`. -/
def suitOfInt : Nat → Suit
  | 0 => .SPADES
  | 1 => .HEARTS
  | 2 => .DIAMONDS
  | _ => .CLUBS

/-- The card sequence that the two nested loops of the `Deck` constructor build, before the
shuffle: `for s in 0..3, for r in 2..14: cards.push_back({(Rank)r, (Suit)s})`. -/
def orderedDeck : List Card :=
  (List.range 4).flatMap fun s => (List.range' 2 13).map fun r => ⟨r, suitOfInt s⟩

/-- The outcome of a call of `Deck::draw`: a card together with the remaining sequence; a
failure that reports an exhausted deck and leaves the sequence as it is; or undefined
behaviour. -/
inductive DrawOutcome where
  | drawn (c : Card) (remaining : List Card)
  | exhausted (remaining : List Card)
  | undefined
  deriving DecidableEq, Repr

/-- Source: `Deck::draw`: `Card c = cards.back(); cards.pop_back(); return c;`.  The source
has no test for an empty vector, and `back()` and `pop_back()` on an empty vector are
undefined. -/
def Deck.draw (cards : List Card) : DrawOutcome :=
  match cards.getLast? with
  | none => .undefined
  | some c => .drawn c cards.dropLast

/-- The result of `k` successive calls of `draw`: the cards drawn, in the order drawn, and
the remaining sequence; `none` when one of the calls does not return a card. -/
def drawMany : Nat → List Card → Option (List Card × List Card)
  | 0, cards => some ([], cards)
  | k + 1, cards =>
    match Deck.draw cards with
    | .drawn c remaining => (drawMany k remaining).map fun p => (c :: p.1, p.2)
    | _ => none

/-! ## Showdown -/

/-- The loop `for (size_t i = 1; i < results.size(); ++i)` of the showdown in `main`, on the
results not yet visited, with the index `i`, `bestHand` and `winners`. -/
def showdownLoop : List EvalResult → Nat → EvalResult → List Nat → EvalResult × List Nat
  | [], _, bestHand, winners => (bestHand, winners)
  | r :: rest, i, bestHand, winners =>
    if r.gt bestHand then showdownLoop rest (i + 1) r [i]
    else if r.eq bestHand then showdownLoop rest (i + 1) bestHand (winners ++ [i])
    else showdownLoop rest (i + 1) bestHand winners

/-- The winner determination of `main`: `bestHand = results[0].second`, `winners = {0}`, then
the loop.  On an empty `results` the read of `results[0]` is out of range. -/
def showdown : List EvalResult → Option (EvalResult × List Nat)
  | [] => none
  | r0 :: rest => some (showdownLoop rest 1 r0 [0])

/-! ## Further vocabulary -/

/-- The positions that a mask selects: the indices `i < 7` with `bitmask[i]` non-zero. -/
def maskPositions (bitmask : List Nat) : List Nat :=
  (List.range 7).filter (fun i => bitmask.getD i 0 ≠ 0)

/-- The five cards 10, J, Q, K, A of one suit. -/
def royalCards (s : Suit) : List Card :=
  [⟨TEN, s⟩, ⟨JACK, s⟩, ⟨QUEEN, s⟩, ⟨KING, s⟩, ⟨ACE, s⟩]

/-- The seven cards of the end-to-end example: hole cards A♠ K♠, board Q♠ J♠ 10♠ 2♥ 3♦. -/
def exampleRoyalSeven : List Card :=
  [⟨ACE, .SPADES⟩, ⟨KING, .SPADES⟩, ⟨QUEEN, .SPADES⟩, ⟨JACK, .SPADES⟩, ⟨TEN, .SPADES⟩,
   ⟨TWO, .HEARTS⟩, ⟨THREE, .DIAMONDS⟩]

/-- The four cards of rank `q`. -/
def quadCards (q : Nat) : List Card :=
  [⟨q, .SPADES⟩, ⟨q, .HEARTS⟩, ⟨q, .DIAMONDS⟩, ⟨q, .CLUBS⟩]

/-- The seven cards of the end-to-end example: hole cards 2♣ 2♦, board 2♥ 2♠ 9♣ 9♦ 5♥. -/
def exampleQuadSeven : List Card :=
  [⟨TWO, .CLUBS⟩, ⟨TWO, .DIAMONDS⟩, ⟨TWO, .HEARTS⟩, ⟨TWO, .SPADES⟩, ⟨NINE, .CLUBS⟩,
   ⟨NINE, .DIAMONDS⟩, ⟨FIVE, .HEARTS⟩]

/-! ## The loop of `getBestFive` with its calls recorded -/

/-- The loop of `getBestFive` with a record of its calls: the same statements as
`getBestFiveLoop`, returning with the final `best` the hands `current` passed to
`evaluateFive`, in the order of the calls. -/
def getBestFiveTrace (seven : List Card) :
    Nat → List Nat → EvalResult → Option (EvalResult × List (List Card))
  | 0, _, _ => none
  | fuel + 1, bitmask, best =>
    (selectCards seven bitmask).bind fun current =>
    (evaluateFive current).bind fun res =>
    let best1 := if res.gt best then res else best
    match prevPermutation bitmask with
    | (true, next) =>
      (getBestFiveTrace seven fuel next best1).map fun p => (p.1, current :: p.2)
    | (false, _) => some (best1, [current])

/-! ## The comparison operators -/

theorem vectorLess_irrefl (a : List Int) : vectorLess a a = false := by
  induction a with
  | nil => rfl
  | cons x xs ih => simp [vectorLess, ih]

theorem vectorLess_trans : ∀ a b c : List Int,
    vectorLess a b = true → vectorLess b c = true → vectorLess a c = true := by
  intro a
  induction a with
  | nil =>
    intro b c hab hbc
    cases b with
    | nil => simp [vectorLess] at hab
    | cons y ys =>
      cases c with
      | nil => simp [vectorLess] at hbc
      | cons z zs => simp [vectorLess]
  | cons x xs ih =>
    intro b c hab hbc
    cases b with
    | nil => simp [vectorLess] at hab
    | cons y ys =>
      cases c with
      | nil => simp [vectorLess] at hbc
      | cons z zs =>
        simp only [vectorLess] at hab hbc ⊢
        split_ifs at hab hbc ⊢ <;> first | rfl | omega | exact ih _ _ hab hbc

theorem vectorLess_asymm : ∀ a b : List Int,
    vectorLess a b = true → vectorLess b a = false := by
  intro a b h
  by_contra h2
  have h3 := vectorLess_trans a b a h (by simpa using h2)
  rw [vectorLess_irrefl] at h3
  exact Bool.false_ne_true h3

theorem vectorLess_total : ∀ a b : List Int,
    vectorLess a b = false → vectorLess b a = false → a = b := by
  intro a
  induction a with
  | nil =>
    intro b hab hba
    cases b with
    | nil => rfl
    | cons y ys => simp [vectorLess] at hab
  | cons x xs ih =>
    intro b hab hba
    cases b with
    | nil => simp [vectorLess] at hba
    | cons y ys =>
      simp only [vectorLess] at hab hba
      split_ifs at hab hba
      have hxy : x = y := by omega
      rw [hxy, ih ys hab hba]

theorem handRank_toNat_injective : ∀ a b : HandRank, a.toNat = b.toNat → a = b := by
  intro a b h
  cases a <;> cases b <;> first | rfl | (simp [HandRank.toNat] at h)

theorem EvalResult.gt_irrefl (a : EvalResult) : a.gt a = false := by
  simp [EvalResult.gt, vectorLess_irrefl]

theorem EvalResult.gt_trans (a b c : EvalResult)
    (hab : a.gt b = true) (hbc : b.gt c = true) : a.gt c = true := by
  obtain ⟨ta, va⟩ := a
  obtain ⟨tb, vb⟩ := b
  obtain ⟨tc, vc⟩ := c
  simp only [EvalResult.gt] at hab hbc ⊢
  by_cases h1 : ta = tb
  · subst h1
    by_cases h2 : ta = tc
    · subst h2
      simp only [ne_eq, not_true_eq_false, if_false] at hab hbc ⊢
      exact vectorLess_trans _ _ _ hbc hab
    · simp only [ne_eq, h2, not_false_eq_true, if_true] at hbc ⊢
      exact hbc
  · by_cases h2 : tb = tc
    · subst h2
      simp only [ne_eq, h1, not_false_eq_true, if_true] at hab ⊢
      exact hab
    · simp only [ne_eq, h1, h2, not_false_eq_true, if_true, decide_eq_true_eq] at hab hbc
      have h3 : ta ≠ tc := by
        intro h; rw [h] at hab; omega
      simp only [ne_eq, h3, not_false_eq_true, if_true, decide_eq_true_eq]
      omega

theorem EvalResult.gt_asymm (a b : EvalResult) (hab : a.gt b = true) : b.gt a = false := by
  by_contra h2
  have h3 := EvalResult.gt_trans a b a hab (by simpa using h2)
  rw [EvalResult.gt_irrefl] at h3
  exact Bool.false_ne_true h3

theorem EvalResult.eq_iff (a b : EvalResult) : a.eq b = true ↔ a = b := by
  cases a; cases b
  simp [EvalResult.eq]

theorem EvalResult.eq_of_not_gt (a b : EvalResult)
    (hab : a.gt b = false) (hba : b.gt a = false) : a = b := by
  unfold EvalResult.gt at hab hba
  by_cases h1 : a.handType = b.handType
  · simp only [h1, ne_eq, not_true_eq_false, if_false] at hab hba
    have := vectorLess_total _ _ hba hab
    cases a; cases b; simp_all
  · have h2 : ¬ b.handType = a.handType := fun h => h1 h.symm
    simp only [ne_eq, h1, h2, not_false_eq_true, if_true, decide_eq_false_iff_not] at hab hba
    exact absurd (handRank_toNat_injective _ _ (by omega)) h1

/-! ## Sorting -/

theorem insertSorted_perm {α : Type} (comp : α → α → Bool) (x : α) (l : List α) :
    (insertSorted comp x l).Perm (x :: l) := by
  induction l with
  | nil => exact List.Perm.refl _
  | cons y ys ih =>
    unfold insertSorted
    split_ifs
    · exact List.Perm.refl _
    · exact (List.Perm.cons y ih).trans (List.Perm.swap x y ys)

theorem stdSort_perm {α : Type} (comp : α → α → Bool) (l : List α) :
    (stdSort comp l).Perm l := by
  induction l with
  | nil => exact List.Perm.refl _
  | cons x xs ih =>
    exact (insertSorted_perm comp x (stdSort comp xs)).trans (List.Perm.cons x ih)

theorem insertSorted_rank_sorted (x : Card) (l : List Card)
    (h : l.Pairwise (fun a b => b.rank ≤ a.rank)) :
    (insertSorted rankBefore x l).Pairwise (fun a b => b.rank ≤ a.rank) := by
  induction l with
  | nil => simp [insertSorted]
  | cons y ys ih =>
    rw [List.pairwise_cons] at h
    unfold insertSorted
    split_ifs with hc
    · have hxy : y.rank < x.rank := by simpa [rankBefore] using hc
      refine List.Pairwise.cons ?_ (List.Pairwise.cons h.1 h.2)
      intro z hz
      rcases List.mem_cons.mp hz with rfl | hz
      · omega
      · have := h.1 z hz
        omega
    · have hxy : x.rank ≤ y.rank := by simpa [rankBefore] using hc
      refine List.Pairwise.cons ?_ (ih h.2)
      intro z hz
      have hz2 := (insertSorted_perm rankBefore x ys).subset hz
      rcases List.mem_cons.mp hz2 with rfl | hz3
      · exact hxy
      · exact h.1 z hz3

theorem stdSort_rank_sorted (l : List Card) :
    (stdSort rankBefore l).Pairwise (fun a b => b.rank ≤ a.rank) := by
  induction l with
  | nil => exact List.Pairwise.nil
  | cons x xs ih => exact insertSorted_rank_sorted x _ ih

theorem checkFlush_iff (l : List Card) :
    checkFlush l = true ↔ ∀ c ∈ l, ∀ d ∈ l, c.suit = d.suit := by
  cases l with
  | nil => simp [checkFlush]
  | cons c0 rest =>
    simp only [checkFlush, List.all_eq_true, decide_eq_true_eq, List.mem_cons]
    constructor
    · intro h c hc d hd
      have hc0 : c.suit = c0.suit := by
        rcases hc with rfl | hc
        · rfl
        · exact h c hc
      have hd0 : d.suit = c0.suit := by
        rcases hd with rfl | hd
        · rfl
        · exact h d hd
      rw [hc0, hd0]
    · intro h c hc
      exact h c (Or.inr hc) c0 (Or.inl rfl)

theorem checkFlush_perm (l1 l2 : List Card) (h : l1.Perm l2) :
    checkFlush l1 = checkFlush l2 := by
  rw [Bool.eq_iff_iff, checkFlush_iff, checkFlush_iff]
  constructor
  · intro H c hc d hd
    exact H c (h.symm.subset hc) d (h.symm.subset hd)
  · intro H c hc d hd
    exact H c (h.subset hc) d (h.subset hd)

theorem sorted_ranks_unique (l1 l2 : List Card) (h : l1.Perm l2)
    (h1 : l1.Pairwise (fun a b => b.rank ≤ a.rank))
    (h2 : l2.Pairwise (fun a b => b.rank ≤ a.rank)) :
    l1.map Card.rank = l2.map Card.rank := by
  have hp : (l1.map Card.rank).Perm (l2.map Card.rank) := h.map _
  have s1 : (l1.map Card.rank).Sorted (· ≥ ·) := by
    rw [List.Sorted, List.pairwise_map]; exact h1
  have s2 : (l2.map Card.rank).Sorted (· ≥ ·) := by
    rw [List.Sorted, List.pairwise_map]; exact h2
  exact List.eq_of_perm_of_sorted hp s1 s2

theorem length_five_cases {α : Type} (l : List α) (h : l.length = 5) :
    ∃ a b c d e, l = [a, b, c, d, e] := by
  match l, h with
  | [a, b, c, d, e], _ => exact ⟨a, b, c, d, e, rfl⟩

/-! ## The frequency table and the decision table -/

theorem mapIncrement_lt (r k n : Nat) (rest : List (Nat × Nat)) (h : r < k) :
    mapIncrement r ((k, n) :: rest) = (r, 1) :: (k, n) :: rest := by
  simp [mapIncrement, h]

theorem mapIncrement_eq (r k n : Nat) (rest : List (Nat × Nat)) (h : r = k) :
    mapIncrement r ((k, n) :: rest) = (k, n + 1) :: rest := by
  simp [mapIncrement, h]

theorem insertSorted_before {α : Type} (comp : α → α → Bool) (x y : α) (ys : List α)
    (h : comp x y = true) : insertSorted comp x (y :: ys) = x :: y :: ys := by
  simp [insertSorted, h]

theorem insertSorted_after {α : Type} (comp : α → α → Bool) (x y : α) (ys : List α)
    (h : comp x y = false) : insertSorted comp x (y :: ys) = y :: insertSorted comp x ys := by
  simp [insertSorted, h]

theorem freqBefore_true (r n k m : Nat) (h : m < n ∨ (n = m ∧ k < r)) :
    freqBefore (r, n) (k, m) = true := by
  unfold freqBefore
  by_cases hnm : n = m
  · simp [hnm]; omega
  · simp [hnm]; omega

theorem freqBefore_false (r n k m : Nat) (h : n < m ∨ (n = m ∧ r ≤ k)) :
    freqBefore (r, n) (k, m) = false := by
  unfold freqBefore
  by_cases hnm : n = m
  · simp [hnm]; omega
  · simp [hnm]; omega

theorem mapIncrement_nil (r : Nat) : mapIncrement r [] = [(r, 1)] := rfl

theorem insertSorted_nil {α : Type} (comp : α → α → Bool) (x : α) :
    insertSorted comp x [] = [x] := rfl

theorem freqInsert_before (r n k m : Nat) (ys : List (Nat × Nat))
    (h : m < n ∨ (n = m ∧ k < r)) :
    insertSorted freqBefore (r, n) ((k, m) :: ys) = (r, n) :: (k, m) :: ys :=
  insertSorted_before _ _ _ _ (freqBefore_true r n k m h)

theorem freqInsert_after (r n k m : Nat) (ys : List (Nat × Nat))
    (h : n < m ∨ (n = m ∧ r ≤ k)) :
    insertSorted freqBefore (r, n) ((k, m) :: ys) = (k, m) :: insertSorted freqBefore (r, n) ys :=
  insertSorted_after _ _ _ _ (freqBefore_false r n k m h)

theorem isNormalStraight_single (a : Card) : isNormalStraight [a] = true := rfl

theorem isNormalStraight_cons_cons (a b : Card) (rest : List Card) :
    isNormalStraight (a :: b :: rest) =
      if a.rank ≠ b.rank + 1 then false else isNormalStraight (b :: rest) := rfl

theorem checkStraight_five (r1 r2 r3 r4 r5 : Nat) (s1 s2 s3 s4 s5 : Suit) :
    checkStraight [⟨r1, s1⟩, ⟨r2, s2⟩, ⟨r3, s3⟩, ⟨r4, s4⟩, ⟨r5, s5⟩] =
      some (decide ((r1 = r2 + 1 ∧ r2 = r3 + 1 ∧ r3 = r4 + 1 ∧ r4 = r5 + 1) ∨
        (r1 = 14 ∧ r2 = 5 ∧ r3 = 4 ∧ r4 = 3 ∧ r5 = 2))) := by
  unfold checkStraight
  simp only [isNormalStraight_cons_cons, isNormalStraight_single, List.length_cons,
    List.length_nil, List.getElem?_cons_zero, List.getElem?_cons_succ, Option.bind_some,
    Option.some_bind]
  simp only [ACE, FIVE, FOUR, THREE, TWO]
  rw [if_neg (by omega)]
  by_cases hn : r1 = r2 + 1 ∧ r2 = r3 + 1 ∧ r3 = r4 + 1 ∧ r4 = r5 + 1
  · obtain ⟨h1, h2, h3, h4⟩ := hn
    have hin : (if r1 ≠ r2 + 1 then false
          else if r2 ≠ r3 + 1 then false else if r3 ≠ r4 + 1 then false
          else if r4 ≠ r5 + 1 then false else true) = true := by
      rw [if_neg (by omega), if_neg (by omega), if_neg (by omega), if_neg (by omega)]
    rw [if_pos hin]
    simp only [Option.some.injEq, true_eq_decide_iff]
    omega
  · have hin : ¬ ((if r1 ≠ r2 + 1 then false
          else if r2 ≠ r3 + 1 then false else if r3 ≠ r4 + 1 then false
          else if r4 ≠ r5 + 1 then false else true) = true) := by
      split_ifs <;> first | omega | simp
    rw [if_neg hin]
    split_ifs <;> simp only [Option.some.injEq, true_eq_decide_iff, false_eq_decide_iff] <;> omega

set_option maxHeartbeats 1000000 in
theorem evaluateSorted_table (r1 r2 r3 r4 r5 : Nat) (s1 s2 s3 s4 s5 : Suit)
    (h12 : r2 ≤ r1) (h23 : r3 ≤ r2) (h34 : r4 ≤ r3) (h45 : r5 ≤ r4) :
    evaluateSorted [⟨r1, s1⟩, ⟨r2, s2⟩, ⟨r3, s3⟩, ⟨r4, s4⟩, ⟨r5, s5⟩] =
      some (classifySorted (checkFlush [⟨r1, s1⟩, ⟨r2, s2⟩, ⟨r3, s3⟩, ⟨r4, s4⟩, ⟨r5, s5⟩])
        r1 r2 r3 r4 r5) := by
  unfold evaluateSorted
  rw [checkStraight_five]
  generalize checkFlush [⟨r1, s1⟩, ⟨r2, s2⟩, ⟨r3, s3⟩, ⟨r4, s4⟩, ⟨r5, s5⟩] = fl
  generalize hf : stdSort freqBefore (countRanks [⟨r1, s1⟩, ⟨r2, s2⟩, ⟨r3, s3⟩, ⟨r4, s4⟩, ⟨r5, s5⟩]) = freq
  rcases Nat.eq_or_lt_of_le h12 with e12 | l12 <;>
  rcases Nat.eq_or_lt_of_le h23 with e23 | l23 <;>
  rcases Nat.eq_or_lt_of_le h34 with e34 | l34 <;>
  rcases Nat.eq_or_lt_of_le h45 with e45 | l45
  all_goals
    simp (disch := omega) only [countRanks, List.foldl, mapIncrement_nil,
      mapIncrement_lt, mapIncrement_eq, stdSort, insertSorted_nil, freqInsert_before,
      freqInsert_after] at hf
  all_goals subst hf
  all_goals
    by_cases hs : ((r1 = r2 + 1 ∧ r2 = r3 + 1 ∧ r3 = r4 + 1 ∧ r4 = r5 + 1) ∨
        (r1 = 14 ∧ r2 = 5 ∧ r3 = 4 ∧ r4 = 3 ∧ r5 = 2))
  all_goals try (exfalso; omega)
  all_goals cases fl
  all_goals
    simp only [hs, decide_False, decide_True, Option.some_bind, Bool.and_false, Bool.and_true,
      Bool.false_and, Bool.true_and, Bool.false_eq_true, if_false, if_true,
      List.getElem?_cons_zero, List.getElem?_cons_succ, Option.map_some', ACE, TEN,
      decide_eq_true_eq]
  all_goals try simp (disch := omega) only [if_pos, if_neg, Option.some_bind, Option.map_some']
  all_goals unfold classifySorted
  all_goals simp only [Bool.false_eq_true, false_and, true_and, if_false, if_true, hs]
  all_goals try simp (disch := omega) only [if_pos, if_neg]
  by_cases h1 : r1 = 14 <;> by_cases h5 : r5 = 10 <;> simp [h1, h5]

/-! ## `evaluateFive` on five cards -/

/-- On a five-card hand `evaluateFive` returns the decision table applied to
the ranks of the hand in descending order. -/
theorem evaluateFive_table (hand : List Card) (hlen : hand.length = 5) :
    ∃ a b c d e : Card, [a, b, c, d, e].Perm hand ∧
      b.rank ≤ a.rank ∧ c.rank ≤ b.rank ∧ d.rank ≤ c.rank ∧ e.rank ≤ d.rank ∧
      evaluateFive hand =
        some (classifySorted (checkFlush hand) a.rank b.rank c.rank d.rank e.rank) := by
  have hperm := stdSort_perm rankBefore hand
  have hsorted := stdSort_rank_sorted hand
  obtain ⟨a, b, c, d, e, hs⟩ := length_five_cases (stdSort rankBefore hand)
    (by rw [hperm.length_eq, hlen])
  rw [hs] at hperm hsorted
  simp only [List.pairwise_cons, List.mem_cons, List.mem_singleton, forall_eq_or_imp,
    forall_eq] at hsorted
  refine ⟨a, b, c, d, e, hperm, hsorted.1.1, hsorted.2.1.1, hsorted.2.2.1.1,
    hsorted.2.2.2.1.1, ?_⟩
  unfold evaluateFive
  rw [hs, ← checkFlush_perm _ _ hperm]
  obtain ⟨r1, s1⟩ := a
  obtain ⟨r2, s2⟩ := b
  obtain ⟨r3, s3⟩ := c
  obtain ⟨r4, s4⟩ := d
  obtain ⟨r5, s5⟩ := e
  exact evaluateSorted_table r1 r2 r3 r4 r5 s1 s2 s3 s4 s5 hsorted.1.1 hsorted.2.1.1
    hsorted.2.2.1.1 hsorted.2.2.2.1.1

/-- Any arrangement of a five-card hand that is sorted by rank descending is
classified like the hand itself. -/
theorem evaluateSorted_of_sorted_perm (hand s : List Card) (hlen : hand.length = 5)
    (hperm : s.Perm hand) (hsorted : s.Pairwise (fun a b => b.rank ≤ a.rank)) :
    evaluateSorted s = evaluateFive hand := by
  obtain ⟨a, b, c, d, e, hp, h1, h2, h3, h4, he⟩ := evaluateFive_table hand hlen
  obtain ⟨a', b', c', d', e', hs⟩ := length_five_cases s (by rw [hperm.length_eq, hlen])
  subst hs
  have hsorted2 : [a, b, c, d, e].Pairwise (fun x y => y.rank ≤ x.rank) := by
    simp only [List.pairwise_cons, List.mem_cons, List.mem_singleton, forall_eq_or_imp,
      forall_eq, List.not_mem_nil, IsEmpty.forall_iff, implies_true, List.Pairwise.nil,
      and_true]
    omega
  have hr := sorted_ranks_unique _ _ (hperm.trans hp.symm) hsorted hsorted2
  simp only [List.map_cons, List.map_nil, List.cons.injEq, and_true] at hr
  have hsorted' := hsorted
  simp only [List.pairwise_cons, List.mem_cons, List.mem_singleton, forall_eq_or_imp,
    forall_eq] at hsorted'
  rw [he, ← checkFlush_perm _ _ hperm, ← hr.1, ← hr.2.1, ← hr.2.2.1, ← hr.2.2.2.1, ← hr.2.2.2.2]
  obtain ⟨r1, s1⟩ := a'
  obtain ⟨r2, s2⟩ := b'
  obtain ⟨r3, s3⟩ := c'
  obtain ⟨r4, s4⟩ := d'
  obtain ⟨r5, s5⟩ := e'
  exact evaluateSorted_table r1 r2 r3 r4 r5 s1 s2 s3 s4 s5 hsorted'.1.1 hsorted'.2.1.1
    hsorted'.2.2.1.1 hsorted'.2.2.2.1.1

/-- `evaluateFive` gives the same result on two arrangements of one five-card hand. -/
theorem evaluateFive_perm (h1 h2 : List Card) (hlen : h1.length = 5) (hperm : h1.Perm h2) :
    evaluateFive h1 = evaluateFive h2 := by
  have hlen2 : h2.length = 5 := by rw [← hperm.length_eq, hlen]
  unfold evaluateFive
  rw [evaluateSorted_of_sorted_perm h2 (stdSort rankBefore h1) hlen2
    ((stdSort_perm rankBefore h1).trans hperm) (stdSort_rank_sorted h1)]
  rfl

/-! ## `getBestFive` as a maximum over 21 subsets -/

theorem maskRun_initialMask : maskRun 128 initialMask = some masks21 := by decide

theorem getBestFiveLoop_eq_foldMasks (seven : List Card) :
    ∀ (fuel : Nat) (m : List Nat) (ms : List (List Nat)) (best : EvalResult),
      maskRun fuel m = some ms → getBestFiveLoop seven fuel m best = foldMasks seven ms best := by
  intro fuel
  induction fuel with
  | zero => intro m ms best h; simp [maskRun] at h
  | succ n ih =>
    intro m ms best h
    unfold maskRun at h
    unfold getBestFiveLoop
    rcases hp : prevPermutation m with ⟨flag, next⟩
    rw [hp] at h
    cases flag with
    | true =>
      simp only [Option.map_eq_some'] at h
      obtain ⟨ms', hms', rfl⟩ := h
      simp only [foldMasks, ih next ms' _ hms']
    | false =>
      simp only [Option.some.injEq] at h
      subst h
      simp only [foldMasks]

theorem getBestFive_eq_foldMasks (seven : List Card) :
    getBestFive seven = foldMasks seven masks21 initialBest :=
  getBestFiveLoop_eq_foldMasks seven 128 initialMask masks21 initialBest maskRun_initialMask



theorem evaluateFive_isSome (hand : List Card) (hlen : hand.length = 5) :
    ∃ r, evaluateFive hand = some r := by
  obtain ⟨a, b, c, d, e, _, _, _, _, _, he⟩ := evaluateFive_table hand hlen
  exact ⟨_, he⟩

theorem classifySorted_gt_initialBest (fl : Bool) (r1 r2 r3 r4 r5 : Nat)
    (h12 : r2 ≤ r1) (h23 : r3 ≤ r2) (h34 : r4 ≤ r3) (h45 : r5 ≤ r4) :
    (classifySorted fl r1 r2 r3 r4 r5).gt initialBest = true := by
  unfold classifySorted
  by_cases hs : ((r1 = r2 + 1 ∧ r2 = r3 + 1 ∧ r3 = r4 + 1 ∧ r4 = r5 + 1) ∨
        (r1 = 14 ∧ r2 = 5 ∧ r3 = 4 ∧ r4 = 3 ∧ r5 = 2)) <;>
  rcases Nat.eq_or_lt_of_le h12 with e12 | l12 <;>
  rcases Nat.eq_or_lt_of_le h23 with e23 | l23 <;>
  rcases Nat.eq_or_lt_of_le h34 with e34 | l34 <;>
  rcases Nat.eq_or_lt_of_le h45 with e45 | l45
  all_goals try (exfalso; omega)
  all_goals cases fl
  all_goals simp only [Bool.false_eq_true, false_and, true_and, if_false, if_true, hs]
  all_goals try simp (disch := omega) only [if_pos, if_neg]
  all_goals simp only [EvalResult.gt, initialBest, vectorLess]
  all_goals try (first | rfl | (split_ifs <;> first | rfl | omega))
  all_goals simp only [ne_eq, not_true_eq_false, if_false]
  all_goals split_ifs <;> first | rfl | omega

theorem evaluateFive_gt_initialBest (hand : List Card) (hlen : hand.length = 5)
    (r : EvalResult) (h : evaluateFive hand = some r) : r.gt initialBest = true := by
  obtain ⟨a, b, c, d, e, _, h1, h2, h3, h4, he⟩ := evaluateFive_table hand hlen
  rw [he] at h
  simp only [Option.some.injEq] at h
  rw [← h]
  exact classifySorted_gt_initialBest _ _ _ _ _ _ h1 h2 h3 h4

theorem foldMasks_spec (seven : List Card) :
    ∀ (ms : List (List Nat)) (best : EvalResult),
      (∀ m ∈ ms, ∃ cur, selectCards seven m = some cur ∧ cur.length = 5) →
      ∃ r, foldMasks seven ms best = some r ∧
        (r = best ∨ ∃ m ∈ ms, ∃ cur, selectCards seven m = some cur ∧ evaluateFive cur = some r) ∧
        best.gt r = false ∧
        (∀ m ∈ ms, ∀ cur res, selectCards seven m = some cur → evaluateFive cur = some res →
          res.gt r = false) := by
  intro ms
  induction ms with
  | nil =>
    intro best _
    exact ⟨best, rfl, Or.inl rfl, EvalResult.gt_irrefl best, by simp⟩
  | cons m ms ih =>
    intro best hsel
    obtain ⟨cur, hcur, hlen⟩ := hsel m (List.mem_cons_self _ _)
    obtain ⟨res, hres⟩ := evaluateFive_isSome cur hlen
    have hrest : ∀ m' ∈ ms, ∃ cur, selectCards seven m' = some cur ∧ cur.length = 5 :=
      fun m' hm' => hsel m' (List.mem_cons_of_mem _ hm')
    obtain ⟨r, hr, hfrom, hbest, hall⟩ := ih (if res.gt best then res else best) hrest
    refine ⟨r, ?_, ?_, ?_, ?_⟩
    · simp only [foldMasks, hcur, hres, Option.some_bind]
      exact hr
    · rcases hfrom with h | ⟨m', hm', cur', hc', he'⟩
      · by_cases hg : res.gt best = true
        · rw [if_pos hg] at h
          exact Or.inr ⟨m, List.mem_cons_self _ _, cur, hcur, by rw [h]; exact hres⟩
        · rw [if_neg hg] at h
          exact Or.inl h
      · exact Or.inr ⟨m', List.mem_cons_of_mem _ hm', cur', hc', he'⟩
    · by_cases hg : res.gt best = true
      · rw [if_pos hg] at hbest
        by_contra hcon
        have h1 : best.gt r = true := by simpa using hcon
        have h2 := EvalResult.gt_trans res best r hg h1
        rw [hbest] at h2
        exact Bool.false_ne_true h2
      · rw [if_neg hg] at hbest
        exact hbest
    · intro m' hm' cur' res' hc' he'
      rcases List.mem_cons.mp hm' with rfl | hm'
      · rw [hcur] at hc'
        simp only [Option.some.injEq] at hc'
        subst hc'
        rw [hres] at he'
        simp only [Option.some.injEq] at he'
        subst he'
        by_cases hg : res.gt best = true
        · rw [if_pos hg] at hbest
          exact hbest
        · rw [if_neg hg] at hbest
          by_contra hcon
          have h1 : res.gt r = true := by simpa using hcon
          by_cases hrb : r.gt best = true
          · exact hg (EvalResult.gt_trans res r best h1 hrb)
          · have hrb' : r.gt best = false := by simpa using hrb
            have := EvalResult.eq_of_not_gt best r hbest hrb'
            rw [← this] at h1
            exact hg h1
      · exact hall m' hm' cur' res' hc' he'

theorem selectCards_masks21 (c0 c1 c2 c3 c4 c5 c6 : Card) :
    ∀ m ∈ masks21, ∃ cur, selectCards [c0, c1, c2, c3, c4, c5, c6] m = some cur ∧
      cur.length = 5 := by
  intro m hm
  simp only [masks21, List.mem_cons, List.mem_singleton, List.not_mem_nil, or_false] at hm
  rcases hm with h | h | h | h | h | h | h | h | h | h | h | h | h | h | h | h | h | h | h | h | h <;>
    subst h <;> exact ⟨_, rfl, rfl⟩

theorem length_seven_cases {α : Type} (l : List α) (h : l.length = 7) :
    ∃ c0 c1 c2 c3 c4 c5 c6, l = [c0, c1, c2, c3, c4, c5, c6] := by
  match l, h with
  | [c0, c1, c2, c3, c4, c5, c6], _ => exact ⟨c0, c1, c2, c3, c4, c5, c6, rfl⟩

set_option maxHeartbeats 1000000 in
theorem sublist_selected (c0 c1 c2 c3 c4 c5 c6 : Card) (cur : List Card)
    (hsub : cur.Sublist [c0, c1, c2, c3, c4, c5, c6]) (hlen : cur.length = 5) :
    ∃ m ∈ masks21, selectCards [c0, c1, c2, c3, c4, c5, c6] m = some cur := by
  have hmem : cur ∈ List.sublistsLen 5 [c0, c1, c2, c3, c4, c5, c6] :=
    List.mem_sublistsLen.mpr ⟨hsub, hlen⟩
  have hmap : masks21.map (selectCards [c0, c1, c2, c3, c4, c5, c6]) =
      [some [c0, c1, c2, c3, c4], some [c0, c1, c2, c3, c5], some [c0, c1, c2, c3, c6],
       some [c0, c1, c2, c4, c5], some [c0, c1, c2, c4, c6], some [c0, c1, c2, c5, c6],
       some [c0, c1, c3, c4, c5], some [c0, c1, c3, c4, c6], some [c0, c1, c3, c5, c6],
       some [c0, c1, c4, c5, c6], some [c0, c2, c3, c4, c5], some [c0, c2, c3, c4, c6],
       some [c0, c2, c3, c5, c6], some [c0, c2, c4, c5, c6], some [c0, c3, c4, c5, c6],
       some [c1, c2, c3, c4, c5], some [c1, c2, c3, c4, c6], some [c1, c2, c3, c5, c6],
       some [c1, c2, c4, c5, c6], some [c1, c3, c4, c5, c6], some [c2, c3, c4, c5, c6]] := rfl
  have hgoal : some cur ∈ masks21.map (selectCards [c0, c1, c2, c3, c4, c5, c6]) := by
    rw [hmap]
    simp [List.sublistsLen_succ_cons] at hmem
    rcases hmem with h | h | h | h | h | h | h | h | h | h | h | h | h | h | h | h | h | h | h |
      h | h <;> subst h <;> simp
  obtain ⟨m, hm, hsel⟩ := List.mem_map.mp hgoal
  exact ⟨m, hm, hsel⟩

set_option maxHeartbeats 1000000 in
theorem selected_sublist (c0 c1 c2 c3 c4 c5 c6 : Card) (m : List Nat) (cur : List Card)
    (hm : m ∈ masks21) (hsel : selectCards [c0, c1, c2, c3, c4, c5, c6] m = some cur) :
    cur.Sublist [c0, c1, c2, c3, c4, c5, c6] ∧ cur.length = 5 := by
  rw [← List.mem_sublistsLen]
  simp only [masks21, List.mem_cons, List.mem_singleton, List.not_mem_nil, or_false] at hm
  rcases hm with h | h | h | h | h | h | h | h | h | h | h | h | h | h | h | h | h | h | h |
    h | h <;> subst h <;>
  · have hc : some cur = some _ := hsel.symm.trans rfl
    simp only [Option.some.injEq] at hc
    subst hc
    simp [List.sublistsLen_succ_cons]

theorem sorted_indices_sublist {α : Type} (l : List α) (idx : List (Fin l.length))
    (hnd : idx.Nodup) :
    ∃ cur : List α, cur.Sublist l ∧ cur.Perm (idx.map l.get) := by
  have hs : (idx.insertionSort (· ≤ ·)).Sorted (· ≤ ·) := List.sorted_insertionSort _ idx
  have hp : (idx.insertionSort (· ≤ ·)).Perm idx := List.perm_insertionSort _ idx
  have hlt : (idx.insertionSort (· ≤ ·)).Pairwise (· < ·) :=
    hs.lt_of_le (hp.nodup_iff.mpr hnd)
  refine ⟨(idx.insertionSort (· ≤ ·)).map l.get, ?_, hp.map _⟩
  exact List.map_getElem_sublist hlt

/-! ## Royal flush -/

theorem classifySorted_royal_iff (fl : Bool) (r1 r2 r3 r4 r5 : Nat)
    (h12 : r2 ≤ r1) (h23 : r3 ≤ r2) (h34 : r4 ≤ r3) (h45 : r5 ≤ r4) :
    (classifySorted fl r1 r2 r3 r4 r5).handType = .ROYAL_FLUSH ↔
      (fl = true ∧ r1 = 14 ∧ r2 = 13 ∧ r3 = 12 ∧ r4 = 11 ∧ r5 = 10) := by
  unfold classifySorted
  by_cases hs : ((r1 = r2 + 1 ∧ r2 = r3 + 1 ∧ r3 = r4 + 1 ∧ r4 = r5 + 1) ∨
        (r1 = 14 ∧ r2 = 5 ∧ r3 = 4 ∧ r4 = 3 ∧ r5 = 2)) <;>
  rcases Nat.eq_or_lt_of_le h12 with e12 | l12 <;>
  rcases Nat.eq_or_lt_of_le h23 with e23 | l23 <;>
  rcases Nat.eq_or_lt_of_le h34 with e34 | l34 <;>
  rcases Nat.eq_or_lt_of_le h45 with e45 | l45
  all_goals try (exfalso; omega)
  all_goals cases fl
  all_goals simp only [Bool.false_eq_true, false_and, true_and, if_false, if_true, hs]
  all_goals try simp (disch := omega) only [if_pos, if_neg]
  all_goals try simp only [reduceCtorEq, false_iff]
  all_goals try omega
  all_goals split_ifs <;> simp only [reduceCtorEq, false_iff, true_iff] <;> omega

theorem checkFlush_iff_exists (hand : List Card) (hne : hand ≠ []) :
    checkFlush hand = true ↔ ∃ s, ∀ c ∈ hand, c.suit = s := by
  rw [checkFlush_iff]
  constructor
  · intro h
    cases hand with
    | nil => exact absurd rfl hne
    | cons c0 rest => exact ⟨c0.suit, fun c hc => h c hc c0 (List.mem_cons_self _ _)⟩
  · rintro ⟨s, hs⟩ c hc d hd
    rw [hs c hc, hs d hd]

theorem royal_ranks_of_mem (r1 r2 r3 r4 r5 : Nat)
    (h12 : r2 ≤ r1) (h23 : r3 ≤ r2) (h34 : r4 ≤ r3) (h45 : r5 ≤ r4)
    (k10 : 10 = r1 ∨ 10 = r2 ∨ 10 = r3 ∨ 10 = r4 ∨ 10 = r5)
    (k11 : 11 = r1 ∨ 11 = r2 ∨ 11 = r3 ∨ 11 = r4 ∨ 11 = r5)
    (k12 : 12 = r1 ∨ 12 = r2 ∨ 12 = r3 ∨ 12 = r4 ∨ 12 = r5)
    (k13 : 13 = r1 ∨ 13 = r2 ∨ 13 = r3 ∨ 13 = r4 ∨ 13 = r5)
    (k14 : 14 = r1 ∨ 14 = r2 ∨ 14 = r3 ∨ 14 = r4 ∨ 14 = r5)
    (ka : r1 = 10 ∨ r1 = 11 ∨ r1 = 12 ∨ r1 = 13 ∨ r1 = 14)
    (ke : r5 = 10 ∨ r5 = 11 ∨ r5 = 12 ∨ r5 = 13 ∨ r5 = 14) :
    r1 = 14 ∧ r2 = 13 ∧ r3 = 12 ∧ r4 = 11 ∧ r5 = 10 := by
  have e1 : r1 = 14 := by clear k10 k11 k12 k13 ke; omega
  have e5 : r5 = 10 := by clear k11 k12 k13 k14 ka; omega
  clear ka ke k10 k14
  subst e1 e5
  have e2 : r2 = 13 := by omega
  subst e2
  omega

/-! ## Tie-break vectors -/

theorem suit_toNat_lt (s : Suit) : s.toNat < 4 := by
  cases s <;> decide

theorem suit_toNat_injective (s t : Suit) (h : s.toNat = t.toNat) : s = t := by
  cases s <;> cases t <;> first | rfl | (simp [Suit.toNat] at h)

theorem rank_ne_of_ne_of_suit (a b : Card) (hab : a ≠ b) (hs : a.suit = b.suit) :
    a.rank ≠ b.rank := by
  intro hr
  apply hab
  cases a; cases b
  simp_all

theorem suit_ne_of_ne_of_rank (a b : Card) (hab : a ≠ b) (hr : a.rank = b.rank) :
    a.suit.toNat ≠ b.suit.toNat := by
  intro hs
  apply hab
  have := suit_toNat_injective _ _ hs
  cases a; cases b
  simp_all

theorem count_cons_int (x y : Int) (l : List Int) :
    (y :: l).count x = l.count x + if y = x then 1 else 0 := by
  rw [List.count_cons]
  simp

set_option maxHeartbeats 4000000 in
theorem classifySorted_tiebreak (fl : Bool) (r1 r2 r3 r4 r5 : Nat)
    (h12 : r2 ≤ r1) (h23 : r3 ≤ r2) (h34 : r4 ≤ r3) (h45 : r5 ≤ r4)
    (hfl : fl = true → r2 < r1 ∧ r3 < r2 ∧ r4 < r3 ∧ r5 < r4)
    (hne : r5 < r1)
    (hcat : (classifySorted fl r1 r2 r3 r4 r5).handType ≠ .STRAIGHT ∧
      (classifySorted fl r1 r2 r3 r4 r5).handType ≠ .STRAIGHT_FLUSH ∧
      (classifySorted fl r1 r2 r3 r4 r5).handType ≠ .ROYAL_FLUSH) :
    (classifySorted fl r1 r2 r3 r4 r5).values.Nodup ∧
    (∀ x : Int, x ∈ (classifySorted fl r1 r2 r3 r4 r5).values ↔
      x ∈ [(r1 : Int), (r2 : Int), (r3 : Int), (r4 : Int), (r5 : Int)]) ∧
    (classifySorted fl r1 r2 r3 r4 r5).values.Pairwise (fun x y =>
      [(r1 : Int), (r2 : Int), (r3 : Int), (r4 : Int), (r5 : Int)].count y <
        [(r1 : Int), (r2 : Int), (r3 : Int), (r4 : Int), (r5 : Int)].count x ∨
      ([(r1 : Int), (r2 : Int), (r3 : Int), (r4 : Int), (r5 : Int)].count x =
        [(r1 : Int), (r2 : Int), (r3 : Int), (r4 : Int), (r5 : Int)].count y ∧ y < x)) ∧
    (classifySorted fl r1 r2 r3 r4 r5).values.map
        [(r1 : Int), (r2 : Int), (r3 : Int), (r4 : Int), (r5 : Int)].count =
      tieBreakCounts (classifySorted fl r1 r2 r3 r4 r5).handType := by
  revert hcat
  unfold classifySorted
  by_cases hs : ((r1 = r2 + 1 ∧ r2 = r3 + 1 ∧ r3 = r4 + 1 ∧ r4 = r5 + 1) ∨
        (r1 = 14 ∧ r2 = 5 ∧ r3 = 4 ∧ r4 = 3 ∧ r5 = 2)) <;>
  rcases Nat.eq_or_lt_of_le h12 with e12 | l12 <;>
  rcases Nat.eq_or_lt_of_le h23 with e23 | l23 <;>
  rcases Nat.eq_or_lt_of_le h34 with e34 | l34 <;>
  rcases Nat.eq_or_lt_of_le h45 with e45 | l45
  all_goals try (exfalso; omega)
  all_goals cases fl
  all_goals simp only [Bool.false_eq_true, false_and, true_and, if_false, if_true, hs,
    false_implies, true_implies] at hfl ⊢
  all_goals try (exfalso; omega)
  all_goals try simp (disch := omega) only [if_pos, if_neg]
  all_goals intro hcat
  all_goals try (exfalso; simp at hcat; done)
  all_goals try (exfalso; split_ifs at hcat <;> simp at hcat)
  all_goals refine ⟨?_, ?_, ?_, ?_⟩
  all_goals try intro x
  all_goals
    simp (disch := omega) only [List.nodup_cons, List.mem_cons, List.mem_singleton,
      List.not_mem_nil, or_false, not_or, List.nodup_nil, and_true, List.pairwise_cons,
      forall_eq_or_imp, forall_eq, List.Pairwise.nil, false_implies, implies_true,
      List.map_cons, List.map_nil, tieBreakCounts, count_cons_int, List.count_nil, if_pos,
      if_neg, IsEmpty.forall_iff, Nat.zero_add, Nat.add_zero, Nat.reduceAdd, Nat.reduceLT,
      Nat.lt_irrefl, false_or, true_and, or_true, true_or, Nat.reduceEqDiff, and_self, if_true,
      not_false_eq_true]
  all_goals omega


theorem not_five_of_a_rank (a b c d e : Card) (hnd : [a, b, c, d, e].Nodup)
    (h12 : b.rank ≤ a.rank) (h23 : c.rank ≤ b.rank) (h34 : d.rank ≤ c.rank)
    (h45 : e.rank ≤ d.rank) : e.rank < a.rank := by
  by_contra hcon
  have e1 : a.rank = b.rank := by omega
  have e2 : b.rank = c.rank := by omega
  have e3 : c.rank = d.rank := by omega
  have e4 : d.rank = e.rank := by omega
  simp only [List.nodup_cons, List.mem_cons, List.mem_singleton, List.not_mem_nil, or_false,
    not_or, List.nodup_nil, and_true, not_false_eq_true] at hnd
  obtain ⟨⟨ab, ac, ad, ae⟩, ⟨bc, bd, be⟩, ⟨cd, ce⟩, de⟩ := hnd
  have s1 := suit_ne_of_ne_of_rank a b ab e1
  have s2 := suit_ne_of_ne_of_rank a c ac (by omega)
  have s3 := suit_ne_of_ne_of_rank a d ad (by omega)
  have s4 := suit_ne_of_ne_of_rank a e ae (by omega)
  have s5 := suit_ne_of_ne_of_rank b c bc e2
  have s6 := suit_ne_of_ne_of_rank b d bd (by omega)
  have s7 := suit_ne_of_ne_of_rank b e be (by omega)
  have s8 := suit_ne_of_ne_of_rank c d cd e3
  have s9 := suit_ne_of_ne_of_rank c e ce (by omega)
  have s10 := suit_ne_of_ne_of_rank d e de e4
  have b1 := suit_toNat_lt a.suit
  have b2 := suit_toNat_lt b.suit
  have b3 := suit_toNat_lt c.suit
  have b4 := suit_toNat_lt d.suit
  have b5 := suit_toNat_lt e.suit
  omega

theorem flush_ranks_strict (a b c d e : Card) (hnd : [a, b, c, d, e].Nodup)
    (hfl : checkFlush [a, b, c, d, e] = true)
    (h12 : b.rank ≤ a.rank) (h23 : c.rank ≤ b.rank) (h34 : d.rank ≤ c.rank)
    (h45 : e.rank ≤ d.rank) :
    b.rank < a.rank ∧ c.rank < b.rank ∧ d.rank < c.rank ∧ e.rank < d.rank := by
  rw [checkFlush_iff] at hfl
  simp only [List.nodup_cons, List.mem_cons, List.mem_singleton, List.not_mem_nil, or_false,
    not_or, List.nodup_nil, and_true, not_false_eq_true] at hnd
  obtain ⟨⟨ab, _, _, _⟩, ⟨bc, _, _⟩, ⟨cd, _⟩, de⟩ := hnd
  have r1 := rank_ne_of_ne_of_suit a b ab (hfl a (by simp) b (by simp))
  have r2 := rank_ne_of_ne_of_suit b c bc (hfl b (by simp) c (by simp))
  have r3 := rank_ne_of_ne_of_suit c d cd (hfl c (by simp) d (by simp))
  have r4 := rank_ne_of_ne_of_suit d e de (hfl d (by simp) e (by simp))
  omega

/-! ## The claims -/

/-- C1: for seven cards, `getBestFive` returns a result, and `evaluateFive` on the cards at any
five distinct positions, taken in any order, is not greater than it under `operator>`. -/
theorem C1_getBestFive_not_weaker (seven : List Card) (hlen : seven.length = 7) :
    ∃ best, getBestFive seven = some best ∧
      ∀ idx : List (Fin seven.length), idx.Nodup → idx.length = 5 →
        ∃ r, evaluateFive (idx.map seven.get) = some r ∧ r.gt best = false := by
  obtain ⟨c0, c1, c2, c3, c4, c5, c6, rfl⟩ := length_seven_cases seven hlen
  obtain ⟨best, hbest, _, _, hall⟩ := foldMasks_spec [c0, c1, c2, c3, c4, c5, c6] masks21
    initialBest (selectCards_masks21 c0 c1 c2 c3 c4 c5 c6)
  refine ⟨best, by rw [getBestFive_eq_foldMasks]; exact hbest, ?_⟩
  intro idx hnd h5
  obtain ⟨cur, hsub, hperm⟩ := sorted_indices_sublist [c0, c1, c2, c3, c4, c5, c6] idx hnd
  have hcl : cur.length = 5 := by rw [hperm.length_eq, List.length_map, h5]
  obtain ⟨m, hm, hsel⟩ := sublist_selected c0 c1 c2 c3 c4 c5 c6 cur hsub hcl
  obtain ⟨r, hr⟩ := evaluateFive_isSome cur hcl
  refine ⟨r, ?_, hall m hm cur r hsel hr⟩
  rw [← evaluateFive_perm cur _ hcl hperm]
  exact hr

theorem C1_getBestFive_not_weaker_witness :
    ∃ best, getBestFive exampleSeven = some best ∧
      ∀ idx : List (Fin exampleSeven.length), idx.Nodup → idx.length = 5 →
        ∃ r, evaluateFive (idx.map exampleSeven.get) = some r ∧ r.gt best = false :=
  C1_getBestFive_not_weaker exampleSeven rfl

/-- C2: for seven cards, the value returned by `getBestFive` is `evaluateFive` of a five-card
sublist of the seven; every result of `evaluateFive` on five cards beats the initial candidate
`{HIGH_CARD, [0]}`, which is therefore never the returned value. -/
theorem C2_getBestFive_is_subset_result (seven : List Card) (hlen : seven.length = 7) :
    (∃ five best, five.Sublist seven ∧ five.length = 5 ∧ evaluateFive five = some best ∧
      getBestFive seven = some best) ∧
    (∀ hand r, hand.length = 5 → evaluateFive hand = some r →
      r.gt initialBest = true ∧ initialBest.gt r = false) ∧
    getBestFive seven ≠ some initialBest := by
  obtain ⟨c0, c1, c2, c3, c4, c5, c6, rfl⟩ := length_seven_cases seven hlen
  obtain ⟨best, hbest, hfrom, _, hall⟩ := foldMasks_spec [c0, c1, c2, c3, c4, c5, c6] masks21
    initialBest (selectCards_masks21 c0 c1 c2 c3 c4 c5 c6)
  have hne : best ≠ initialBest := by
    intro heq
    have hm : [1, 1, 1, 1, 1, 0, 0] ∈ masks21 := by simp [masks21]
    obtain ⟨res, hres⟩ := evaluateFive_isSome [c0, c1, c2, c3, c4] rfl
    have h1 := hall _ hm [c0, c1, c2, c3, c4] res rfl hres
    have h2 := evaluateFive_gt_initialBest [c0, c1, c2, c3, c4] rfl res hres
    rw [heq, h2] at h1
    exact Bool.noConfusion h1
  rw [getBestFive_eq_foldMasks, hbest]
  refine ⟨?_, ?_, ?_⟩
  · rcases hfrom with h | ⟨m, hm, cur, hsel, he⟩
    · exact absurd h hne
    · obtain ⟨hsub, hl⟩ := selected_sublist c0 c1 c2 c3 c4 c5 c6 m cur hm hsel
      exact ⟨cur, best, hsub, hl, he, rfl⟩
  · intro hand r hl he
    have h := evaluateFive_gt_initialBest hand hl r he
    exact ⟨h, EvalResult.gt_asymm _ _ h⟩
  · intro h
    exact hne (Option.some.inj h)

theorem C2_getBestFive_is_subset_result_witness :
    ∃ five best, five.Sublist exampleSeven ∧ five.length = 5 ∧
      evaluateFive five = some best ∧ getBestFive exampleSeven = some best :=
  (C2_getBestFive_is_subset_result exampleSeven rfl).1

/-- C3: on the wheel A♠ 5♥ 4♦ 3♣ 2♠ the code returns STRAIGHT with tie-break vector `[14]`
(the Ace), not `[5]`, and that result is greater under `operator>` than the result `[6]` of
the six-high straight 6♠ 5♥ 4♦ 3♣ 2♠. -/
theorem C3_wheel_tiebreak_is_ace :
    evaluateFive wheelHand = some ⟨.STRAIGHT, [14]⟩ ∧
    evaluateFive sixHighHand = some ⟨.STRAIGHT, [6]⟩ ∧
    EvalResult.gt ⟨.STRAIGHT, [14]⟩ ⟨.STRAIGHT, [6]⟩ = true ∧
    EvalResult.gt ⟨.STRAIGHT, [6]⟩ ⟨.STRAIGHT, [14]⟩ = false := by
  decide

set_option maxRecDepth 100000 in
/-- C4 (as stated, refuted): on 7♥ 8♥ 9♥ 6♥ 5♦ 2♣ K♦ `getBestFive` does not return a
STRAIGHT_FLUSH. -/
theorem C4_not_straight_flush :
    ¬ ∃ r, getBestFive exampleSeven = some r ∧ r.handType = .STRAIGHT_FLUSH := by
  decide

set_option maxRecDepth 100000 in
/-- C4 (amended): on 7♥ 8♥ 9♥ 6♥ 5♦ 2♣ K♦ `getBestFive` returns category STRAIGHT with
tie-break vector `[9]`. -/
theorem C4_example_is_straight :
    getBestFive exampleSeven = some ⟨.STRAIGHT, [9]⟩ := by
  decide

/-- C5: a five-card hand, in any order, is classified as ROYAL_FLUSH if and only if all five
cards share one suit and the set of their ranks is exactly {10, J, Q, K, A}. -/
theorem C5_royal_flush_iff (hand : List Card) (hlen : hand.length = 5) :
    (∃ r, evaluateFive hand = some r ∧ r.handType = .ROYAL_FLUSH) ↔
      ((∃ s, ∀ c ∈ hand, c.suit = s) ∧
        ∀ k, k ∈ hand.map Card.rank ↔ k ∈ [TEN, JACK, QUEEN, KING, ACE]) := by
  obtain ⟨a, b, c, d, e, hperm, h1, h2, h3, h4, he⟩ := evaluateFive_table hand hlen
  have hne : hand ≠ [] := by intro h; rw [h] at hlen; exact absurd hlen (by decide)
  have hmem : ∀ k, k ∈ hand.map Card.rank ↔
      (k = a.rank ∨ k = b.rank ∨ k = c.rank ∨ k = d.rank ∨ k = e.rank) := by
    intro k
    rw [← (hperm.map Card.rank).mem_iff]
    simp
  rw [he, ← checkFlush_iff_exists hand hne]
  simp only [Option.some.injEq, exists_eq_left', classifySorted_royal_iff _ _ _ _ _ _ h1 h2 h3 h4]
  constructor
  · rintro ⟨hfl, e1, e2, e3, e4, e5⟩
    refine ⟨hfl, ?_⟩
    intro k
    rw [hmem, e1, e2, e3, e4, e5]
    simp only [List.mem_cons, List.mem_singleton, List.not_mem_nil, or_false, TEN, JACK, QUEEN,
      KING, ACE]
    omega
  · rintro ⟨hfl, hk⟩
    refine ⟨hfl, ?_⟩
    have k10 := (hk 10).mpr (by simp)
    have k11 := (hk 11).mpr (by simp)
    have k12 := (hk 12).mpr (by simp)
    have k13 := (hk 13).mpr (by simp)
    have k14 := (hk 14).mpr (by simp)
    have ka := (hk a.rank).mp ((hmem _).mpr (Or.inl rfl))
    have ke := (hk e.rank).mp ((hmem _).mpr (Or.inr (Or.inr (Or.inr (Or.inr rfl)))))
    rw [hmem] at k10 k11 k12 k13 k14
    simp only [List.mem_cons, List.mem_singleton, List.not_mem_nil, or_false, TEN, JACK, QUEEN,
      KING, ACE] at ka ke
    exact royal_ranks_of_mem _ _ _ _ _ h1 h2 h3 h4 k10 k11 k12 k13 k14 ka ke

theorem C5_royal_flush_iff_witness :
    ∃ r, evaluateFive [⟨QUEEN, .DIAMONDS⟩, ⟨TEN, .DIAMONDS⟩, ⟨ACE, .DIAMONDS⟩,
        ⟨JACK, .DIAMONDS⟩, ⟨KING, .DIAMONDS⟩] = some r ∧ r.handType = .ROYAL_FLUSH :=
  (C5_royal_flush_iff [⟨QUEEN, .DIAMONDS⟩, ⟨TEN, .DIAMONDS⟩, ⟨ACE, .DIAMONDS⟩,
    ⟨JACK, .DIAMONDS⟩, ⟨KING, .DIAMONDS⟩] rfl).mpr
    ⟨⟨.DIAMONDS, by decide⟩, fun k => by simp [TEN, JACK, QUEEN, KING, ACE]; omega⟩

/-- C6: every ordering of the five cards A, 2, 3, 4, 5 of one suit is classified as
STRAIGHT_FLUSH, and not as ROYAL_FLUSH. -/
theorem C6_wheel_flush_is_straight_flush (s : Suit) (hand : List Card)
    (hperm : hand.Perm (wheelFlush s)) :
    ∃ r, evaluateFive hand = some r ∧ r.handType = .STRAIGHT_FLUSH ∧
      r.handType ≠ .ROYAL_FLUSH := by
  have hlen : hand.length = 5 := by rw [hperm.length_eq]; rfl
  rw [evaluateFive_perm hand _ hlen hperm]
  cases s <;> exact ⟨_, rfl, rfl, by decide⟩

theorem C6_wheel_flush_is_straight_flush_witness :
    ∃ r, evaluateFive [⟨FOUR, .CLUBS⟩, ⟨ACE, .CLUBS⟩, ⟨TWO, .CLUBS⟩, ⟨FIVE, .CLUBS⟩,
        ⟨THREE, .CLUBS⟩] = some r ∧
      r.handType = .STRAIGHT_FLUSH ∧ r.handType ≠ .ROYAL_FLUSH :=
  C6_wheel_flush_is_straight_flush .CLUBS _ (by decide)

/-- C7: `operator>` is irreflexive and transitive on all `EvalResult` values, and for every
`a` and `b` exactly one of `a > b`, `b > a`, `a == b` holds. -/
theorem C7_strict_total_order :
    (∀ a : EvalResult, a.gt a = false) ∧
    (∀ a b c : EvalResult, a.gt b = true → b.gt c = true → a.gt c = true) ∧
    (∀ a b : EvalResult,
      (a.gt b = true ∧ b.gt a = false ∧ a.eq b = false) ∨
      (a.gt b = false ∧ b.gt a = true ∧ a.eq b = false) ∨
      (a.gt b = false ∧ b.gt a = false ∧ a.eq b = true)) := by
  refine ⟨EvalResult.gt_irrefl, EvalResult.gt_trans, ?_⟩
  intro a b
  have hne : ∀ x y : EvalResult, x.gt y = true → x.eq y = false := by
    intro x y hxy
    by_contra hcon
    have heq : x = y := (EvalResult.eq_iff x y).mp (by simpa using hcon)
    rw [heq, EvalResult.gt_irrefl] at hxy
    exact Bool.false_ne_true hxy
  by_cases hab : a.gt b = true
  · exact Or.inl ⟨hab, EvalResult.gt_asymm a b hab, hne a b hab⟩
  · have hab' : a.gt b = false := by simpa using hab
    by_cases hba : b.gt a = true
    · refine Or.inr (Or.inl ⟨hab', hba, ?_⟩)
      by_contra hcon
      have heq : a = b := (EvalResult.eq_iff a b).mp (by simpa using hcon)
      rw [heq, EvalResult.gt_irrefl] at hba
      exact Bool.false_ne_true hba
    · have hba' : b.gt a = false := by simpa using hba
      exact Or.inr (Or.inr ⟨hab', hba',
        (EvalResult.eq_iff a b).mpr (EvalResult.eq_of_not_gt a b hab' hba')⟩)

/-- C8: when the category of `a` is strictly higher than the category of `b` in the order
HIGH_CARD < ONE_PAIR < TWO_PAIR < THREE_OF_A_KIND < STRAIGHT < FLUSH < FULL_HOUSE <
FOUR_OF_A_KIND < STRAIGHT_FLUSH < ROYAL_FLUSH, `a > b` holds and `b > a` does not, whatever the
tie-break vectors are; every FULL_HOUSE result beats every FLUSH result. -/
theorem C8_category_decides (a b : EvalResult)
    (h : b.handType.toNat < a.handType.toNat) :
    ([HandRank.HIGH_CARD, .ONE_PAIR, .TWO_PAIR, .THREE_OF_A_KIND, .STRAIGHT, .FLUSH,
        .FULL_HOUSE, .FOUR_OF_A_KIND, .STRAIGHT_FLUSH, .ROYAL_FLUSH].map HandRank.toNat =
      [0, 1, 2, 3, 4, 5, 6, 7, 8, 9]) ∧
    a.gt b = true ∧ b.gt a = false ∧
    (∀ va vb : List Int,
      EvalResult.gt ⟨.FULL_HOUSE, va⟩ ⟨.FLUSH, vb⟩ = true ∧
      EvalResult.gt ⟨.FLUSH, vb⟩ ⟨.FULL_HOUSE, va⟩ = false) := by
  have hne : a.handType ≠ b.handType := by
    intro heq; rw [heq] at h; omega
  have hne' : b.handType ≠ a.handType := fun heq => hne heq.symm
  refine ⟨rfl, ?_, ?_, ?_⟩
  · simp only [EvalResult.gt, ne_eq, hne, not_false_eq_true, if_true, decide_eq_true_eq]
    omega
  · simp only [EvalResult.gt, ne_eq, hne', not_false_eq_true, if_true, decide_eq_false_iff_not]
    omega
  · intro va vb
    constructor <;> rfl

theorem C8_category_decides_witness :
    EvalResult.gt ⟨.FULL_HOUSE, [2, 3]⟩ ⟨.FLUSH, [14, 13, 12, 11, 9]⟩ = true ∧
    EvalResult.gt ⟨.FLUSH, [14, 13, 12, 11, 9]⟩ ⟨.FULL_HOUSE, [2, 3]⟩ = false :=
  let h := C8_category_decides ⟨.FULL_HOUSE, [2, 3]⟩ ⟨.FLUSH, [14, 13, 12, 11, 9]⟩ (by decide)
  ⟨h.2.1, h.2.2.1⟩

/-- C9: `evaluateFive` depends only on the multiset of its five cards: it returns a result,
returns the same result on every permutation of the hand, and the classification of any
arrangement of the hand that is sorted by rank descending (whatever the order of equal-rank
cards) is that same result. -/
theorem C9_evaluateFive_multiset (hand : List Card) (hlen : hand.length = 5) :
    (∃ r, evaluateFive hand = some r) ∧
    (∀ hand2 : List Card, hand2.Perm hand → evaluateFive hand2 = evaluateFive hand) ∧
    (∀ s : List Card, s.Perm hand → s.Pairwise (fun a b => b.rank ≤ a.rank) →
      evaluateSorted s = evaluateFive hand) := by
  refine ⟨evaluateFive_isSome hand hlen, ?_, ?_⟩
  · intro hand2 hperm
    exact evaluateFive_perm hand2 hand (by rw [hperm.length_eq, hlen]) hperm
  · intro s hperm hsorted
    exact evaluateSorted_of_sorted_perm hand s hlen hperm hsorted

theorem C9_evaluateFive_multiset_witness :
    evaluateFive [⟨NINE, .CLUBS⟩, ⟨TWO, .HEARTS⟩, ⟨NINE, .SPADES⟩, ⟨KING, .HEARTS⟩,
        ⟨TWO, .SPADES⟩] =
      evaluateFive [⟨TWO, .SPADES⟩, ⟨NINE, .SPADES⟩, ⟨KING, .HEARTS⟩, ⟨NINE, .CLUBS⟩,
        ⟨TWO, .HEARTS⟩] :=
  (C9_evaluateFive_multiset [⟨TWO, .SPADES⟩, ⟨NINE, .SPADES⟩, ⟨KING, .HEARTS⟩,
    ⟨NINE, .CLUBS⟩, ⟨TWO, .HEARTS⟩] rfl).2.1 _ (by decide)

/-- C10: for five pairwise-distinct cards classified as FOUR_OF_A_KIND, FULL_HOUSE, FLUSH,
THREE_OF_A_KIND, TWO_PAIR, ONE_PAIR or HIGH_CARD, the tie-break vector lists every distinct
rank of the hand exactly once, ordered by number of occurrences descending and then by rank
descending, and the occurrence counts of its entries are [4,1], [3,2], [3,1,1], [2,2,1],
[2,1,1,1], and [1,1,1,1,1] for FLUSH and HIGH_CARD. -/
theorem C10_tiebreak_vector (hand : List Card) (hlen : hand.length = 5) (hnd : hand.Nodup)
    (r : EvalResult) (he : evaluateFive hand = some r)
    (hcat : r.handType ∈ [HandRank.FOUR_OF_A_KIND, .FULL_HOUSE, .FLUSH, .THREE_OF_A_KIND,
      .TWO_PAIR, .ONE_PAIR, .HIGH_CARD]) :
    r.values.Nodup ∧
    (∀ x : Int, x ∈ r.values ↔ x ∈ rankValues hand) ∧
    r.values.Pairwise (fun x y =>
      occurrences hand y < occurrences hand x ∨
      (occurrences hand x = occurrences hand y ∧ y < x)) ∧
    r.values.map (occurrences hand) = tieBreakCounts r.handType := by
  obtain ⟨a, b, c, d, e, hperm, h1, h2, h3, h4, htab⟩ := evaluateFive_table hand hlen
  rw [htab] at he
  simp only [Option.some.injEq] at he
  have hnd5 : [a, b, c, d, e].Nodup := hperm.nodup_iff.mpr hnd
  have hne := not_five_of_a_rank a b c d e hnd5 h1 h2 h3 h4
  have hfl : checkFlush hand = true →
      b.rank < a.rank ∧ c.rank < b.rank ∧ d.rank < c.rank ∧ e.rank < d.rank := by
    intro hf
    rw [← checkFlush_perm _ _ hperm] at hf
    exact flush_ranks_strict a b c d e hnd5 hf h1 h2 h3 h4
  have hvals : (rankValues hand).Perm
      [(a.rank : Int), (b.rank : Int), (c.rank : Int), (d.rank : Int), (e.rank : Int)] :=
    (hperm.map (fun c : Card => (c.rank : Int))).symm
  have hocc : occurrences hand = fun x =>
      [(a.rank : Int), (b.rank : Int), (c.rank : Int), (d.rank : Int), (e.rank : Int)].count x := by
    funext x
    exact hvals.count_eq x
  have hcat2 : (classifySorted (checkFlush hand) a.rank b.rank c.rank d.rank e.rank).handType ≠
        .STRAIGHT ∧
      (classifySorted (checkFlush hand) a.rank b.rank c.rank d.rank e.rank).handType ≠
        .STRAIGHT_FLUSH ∧
      (classifySorted (checkFlush hand) a.rank b.rank c.rank d.rank e.rank).handType ≠
        .ROYAL_FLUSH := by
    rw [he]
    simp only [List.mem_cons, List.mem_singleton, List.not_mem_nil, or_false] at hcat
    rcases hcat with h | h | h | h | h | h | h <;> rw [h] <;> decide
  have key := classifySorted_tiebreak (checkFlush hand) a.rank b.rank c.rank d.rank e.rank
    h1 h2 h3 h4 hfl hne hcat2
  rw [he] at key
  rw [hocc]
  refine ⟨key.1, ?_, key.2.2.1, key.2.2.2⟩
  intro x
  rw [key.2.1 x, hvals.mem_iff]

theorem C10_tiebreak_vector_witness :
    [(9 : Int), 2, 13].map (occurrences [⟨NINE, .CLUBS⟩, ⟨TWO, .HEARTS⟩, ⟨NINE, .SPADES⟩,
      ⟨KING, .HEARTS⟩, ⟨TWO, .SPADES⟩]) = [2, 2, 1] :=
  (C10_tiebreak_vector [⟨NINE, .CLUBS⟩, ⟨TWO, .HEARTS⟩, ⟨NINE, .SPADES⟩, ⟨KING, .HEARTS⟩,
    ⟨TWO, .SPADES⟩] rfl (by decide) ⟨.TWO_PAIR, [9, 2, 13]⟩ (by decide) (by decide)).2.2.2

/-! ## The mask loop -/

theorem getBestFiveLoop_out_of_fuel (seven : List Card) :
    ∀ (fuel : Nat) (m : List Nat) (best : EvalResult),
      maskRun fuel m = none → getBestFiveLoop seven fuel m best = none := by
  intro fuel
  induction fuel with
  | zero => intro m best _; rfl
  | succ n ih =>
    intro m best h
    unfold maskRun at h
    unfold getBestFiveLoop
    rcases hp : prevPermutation m with ⟨flag, next⟩
    rw [hp] at h
    cases flag with
    | true =>
      simp only [Option.map_eq_none'] at h
      simp only [ih next _ h]
      cases selectCards seven m with
      | none => rfl
      | some current =>
        simp only [Option.some_bind]
        cases evaluateFive current with
        | none => rfl
        | some res => rfl
    | false => simp at h

theorem mem_masks21_iff (m : List Nat) :
    m ∈ masks21 ↔ (m.length = 7 ∧ (∀ b ∈ m, b = 0 ∨ b = 1) ∧ m.count 1 = 5) := by
  constructor
  · intro h
    revert m
    decide
  · rintro ⟨hlen, hbits, hcount⟩
    obtain ⟨a, b, c, d, e, f, g, rfl⟩ := length_seven_cases m hlen
    simp only [List.mem_cons, List.mem_singleton, List.not_mem_nil, or_false, forall_eq_or_imp,
      forall_eq] at hbits
    obtain ⟨ha, hb, hc, hd, he, hf, hg⟩ := hbits
    rcases ha with rfl | rfl <;> rcases hb with rfl | rfl <;> rcases hc with rfl | rfl <;>
    rcases hd with rfl | rfl <;> rcases he with rfl | rfl <;> rcases hf with rfl | rfl <;>
    rcases hg with rfl | rfl <;> first | (exact absurd hcount (by decide)) | decide

theorem masks21_positions :
    (masks21.map maskPositions).Perm (List.sublistsLen 5 (List.range 7)) := by
  decide

theorem freq_counts_five (r1 r2 r3 r4 r5 : Nat) (s1 s2 s3 s4 s5 : Suit)
    (h12 : r2 ≤ r1) (h23 : r3 ≤ r2) (h34 : r4 ≤ r3) (h45 : r5 ≤ r4) :
    (stdSort freqBefore (countRanks
        [⟨r1, s1⟩, ⟨r2, s2⟩, ⟨r3, s3⟩, ⟨r4, s4⟩, ⟨r5, s5⟩])).map Prod.snd ∈
      [[5], [4, 1], [3, 2], [3, 1, 1], [2, 2, 1], [2, 1, 1, 1], [1, 1, 1, 1, 1]] := by
  rcases Nat.eq_or_lt_of_le h12 with e12 | l12 <;>
  rcases Nat.eq_or_lt_of_le h23 with e23 | l23 <;>
  rcases Nat.eq_or_lt_of_le h34 with e34 | l34 <;>
  rcases Nat.eq_or_lt_of_le h45 with e45 | l45
  all_goals
    simp (disch := omega) only [countRanks, List.foldl, mapIncrement_nil,
      mapIncrement_lt, mapIncrement_eq, stdSort, insertSorted_nil, freqInsert_before,
      freqInsert_after, List.map_cons, List.map_nil]
  all_goals decide



theorem freq_counts_hand (hand : List Card) (hlen : hand.length = 5) :
    (stdSort freqBefore (countRanks (stdSort rankBefore hand))).map Prod.snd ∈
      [[5], [4, 1], [3, 2], [3, 1, 1], [2, 2, 1], [2, 1, 1, 1], [1, 1, 1, 1, 1]] := by
  have hperm := stdSort_perm rankBefore hand
  have hsorted := stdSort_rank_sorted hand
  obtain ⟨a, b, c, d, e, hs⟩ := length_five_cases (stdSort rankBefore hand)
    (by rw [hperm.length_eq, hlen])
  rw [hs] at hsorted ⊢
  simp only [List.pairwise_cons, List.mem_cons, List.mem_singleton, forall_eq_or_imp,
    forall_eq] at hsorted
  obtain ⟨r1, s1⟩ := a
  obtain ⟨r2, s2⟩ := b
  obtain ⟨r3, s3⟩ := c
  obtain ⟨r4, s4⟩ := d
  obtain ⟨r5, s5⟩ := e
  exact freq_counts_five r1 r2 r3 r4 r5 s1 s2 s3 s4 s5 hsorted.1.1 hsorted.2.1.1
    hsorted.2.2.1.1 hsorted.2.2.2.1.1

theorem freq_reads_in_range (freq : List (Nat × Nat))
    (hshape : freq.map Prod.snd ∈
      [[5], [4, 1], [3, 2], [3, 1, 1], [2, 2, 1], [2, 1, 1, 1], [1, 1, 1, 1, 1]]) :
    ∃ f0, freq[0]? = some f0 ∧
      (f0.2 = 4 → 2 ≤ freq.length) ∧
      (f0.2 = 3 → ∃ f1, freq[1]? = some f1 ∧ (f1.2 ≠ 2 → 3 ≤ freq.length)) ∧
      (f0.2 = 2 → ∃ f1, freq[1]? = some f1 ∧ (f1.2 = 2 → 3 ≤ freq.length) ∧
        (f1.2 ≠ 2 → 4 ≤ freq.length)) := by
  simp only [List.mem_cons, List.mem_singleton, List.not_mem_nil, or_false] at hshape
  rcases hshape with h | h | h | h | h | h | h <;>
    simp only [List.map_eq_cons_iff, List.map_eq_nil_iff] at h
  all_goals obtain ⟨f0, t0, rfl, h0, h⟩ := h
  all_goals try obtain ⟨f1, t1, rfl, h1, h⟩ := h
  all_goals try obtain ⟨f2, t2, rfl, h2, h⟩ := h
  all_goals try obtain ⟨f3, t3, rfl, h3, h⟩ := h
  all_goals try obtain ⟨f4, t4, rfl, h4, h⟩ := h
  all_goals try subst h
  all_goals refine ⟨f0, rfl, ?_, ?_, ?_⟩
  all_goals intro hc
  all_goals first
    | (exfalso; omega)
    | (simp only [List.length_cons, List.length_nil]; omega)
    | (refine ⟨f1, rfl, ?_⟩
       simp only [List.length_cons, List.length_nil]
       omega)

/-! ## `getBestFive` as the greatest result -/

/-- On seven cards `getBestFive` returns the result of a five-card sublist, and no five cards
taken from the seven give a greater result. -/
theorem getBestFive_max (seven : List Card) (hlen : seven.length = 7) :
    ∃ best, getBestFive seven = some best ∧
      (∃ five, five.Sublist seven ∧ five.length = 5 ∧ evaluateFive five = some best) ∧
      (∀ five r, five.Subperm seven → five.length = 5 → evaluateFive five = some r →
        r.gt best = false) := by
  obtain ⟨c0, c1, c2, c3, c4, c5, c6, rfl⟩ := length_seven_cases seven hlen
  obtain ⟨best, hbest, hfrom, _, hall⟩ := foldMasks_spec [c0, c1, c2, c3, c4, c5, c6] masks21
    initialBest (selectCards_masks21 c0 c1 c2 c3 c4 c5 c6)
  have hne : best ≠ initialBest := by
    intro heq
    have hm : [1, 1, 1, 1, 1, 0, 0] ∈ masks21 := by simp [masks21]
    obtain ⟨res, hres⟩ := evaluateFive_isSome [c0, c1, c2, c3, c4] rfl
    have h1 := hall _ hm [c0, c1, c2, c3, c4] res rfl hres
    have h2 := evaluateFive_gt_initialBest [c0, c1, c2, c3, c4] rfl res hres
    rw [heq, h2] at h1
    exact Bool.noConfusion h1
  refine ⟨best, by rw [getBestFive_eq_foldMasks]; exact hbest, ?_, ?_⟩
  · rcases hfrom with h | ⟨m, hm, cur, hsel, he⟩
    · exact absurd h hne
    · obtain ⟨hsub, hl⟩ := selected_sublist c0 c1 c2 c3 c4 c5 c6 m cur hm hsel
      exact ⟨cur, hsub, hl, he⟩
  · intro five r hsp h5 he
    obtain ⟨l, hperm, hsub⟩ := hsp
    have hl : l.length = 5 := by rw [hperm.length_eq, h5]
    obtain ⟨m, hm, hsel⟩ := sublist_selected c0 c1 c2 c3 c4 c5 c6 l hsub hl
    rw [← evaluateFive_perm l five hl hperm] at he
    exact hall m hm l r hsel he

/-- A result of five cards taken from the seven that no five-card sublist exceeds is the value
of `getBestFive`. -/
theorem getBestFive_eq_of_max (seven : List Card) (hlen : seven.length = 7)
    (five : List Card) (r : EvalResult) (hsp : five.Subperm seven) (h5 : five.length = 5)
    (he : evaluateFive five = some r)
    (hmax : ∀ f2 r2, f2.Sublist seven → f2.length = 5 → evaluateFive f2 = some r2 →
      r2.gt r = false) :
    getBestFive seven = some r := by
  obtain ⟨best, hbest, ⟨f2, hsub, hl, hf2⟩, hall⟩ := getBestFive_max seven hlen
  have h1 : r.gt best = false := hall five r hsp h5 he
  have h2 : best.gt r = false := hmax f2 best hsub hl hf2
  rw [hbest, EvalResult.eq_of_not_gt best r h2 h1]

theorem getBestFive_perm (s1 s2 : List Card) (hlen : s1.length = 7) (hperm : s1.Perm s2) :
    getBestFive s1 = getBestFive s2 := by
  have hlen2 : s2.length = 7 := by rw [← hperm.length_eq, hlen]
  obtain ⟨b1, hb1, ⟨f1, hsub1, hl1, hf1⟩, hall1⟩ := getBestFive_max s1 hlen
  obtain ⟨b2, hb2, ⟨f2, hsub2, hl2, hf2⟩, hall2⟩ := getBestFive_max s2 hlen2
  have h12 : b1.gt b2 = false := hall2 f1 b1 (hsub1.subperm.trans hperm.subperm) hl1 hf1
  have h21 : b2.gt b1 = false := hall1 f2 b2 (hsub2.subperm.trans hperm.symm.subperm) hl2 hf2
  rw [hb1, hb2, EvalResult.eq_of_not_gt b1 b2 h12 h21]

/-! ## Deck: contents and draws -/

set_option maxRecDepth 100000 in
theorem orderedDeck_nodup : orderedDeck.Nodup := by decide

set_option maxRecDepth 100000 in
theorem orderedDeck_ranks : ∀ c ∈ orderedDeck, 2 ≤ c.rank ∧ c.rank ≤ 14 := by decide

set_option maxRecDepth 100000 in
theorem mem_orderedDeck (r : Nat) (s : Suit) (h2 : 2 ≤ r) (h14 : r ≤ 14) :
    (⟨r, s⟩ : Card) ∈ orderedDeck := by
  interval_cases r <;> cases s <;> decide

theorem count_of_perm_orderedDeck (cards : List Card) (h : cards.Perm orderedDeck) (c : Card) :
    cards.count c = if 2 ≤ c.rank ∧ c.rank ≤ 14 then 1 else 0 := by
  rw [h.count_eq]
  split_ifs with hc
  · obtain ⟨r, s⟩ := c
    exact List.count_eq_one_of_mem orderedDeck_nodup (mem_orderedDeck r s hc.1 hc.2)
  · apply List.count_eq_zero_of_not_mem
    intro hm
    exact hc (orderedDeck_ranks c hm)

/-- C14: the sequence built by the `Deck` constructor has exactly 52 entries and holds every
card with rank in 2..14 and any of the four suits exactly once, and no other card; every
permutation of it (the result of the shuffle) has the same properties. -/
theorem C14_deck_contents :
    orderedDeck.length = 52 ∧
    (∀ c : Card, orderedDeck.count c = if 2 ≤ c.rank ∧ c.rank ≤ 14 then 1 else 0) ∧
    (∀ cards : List Card, cards.Perm orderedDeck →
      cards.length = 52 ∧ cards.Nodup ∧
      (∀ c : Card, cards.count c = if 2 ≤ c.rank ∧ c.rank ≤ 14 then 1 else 0)) := by
  refine ⟨by decide, count_of_perm_orderedDeck orderedDeck (List.Perm.refl _), ?_⟩
  intro cards h
  exact ⟨by rw [h.length_eq]; decide, h.nodup_iff.mpr orderedDeck_nodup,
    count_of_perm_orderedDeck cards h⟩

theorem draw_of_ne_nil (cards : List Card) (h : cards ≠ []) :
    Deck.draw cards = .drawn (cards.getLast h) cards.dropLast := by
  unfold Deck.draw
  rw [List.getLast?_eq_getLast cards h]

theorem drawMany_spec : ∀ (k : Nat) (cards : List Card), k ≤ cards.length →
    ∃ drawn rest, drawMany k cards = some (drawn, rest) ∧
      cards = rest ++ drawn.reverse ∧ drawn.length = k := by
  intro k
  induction k with
  | zero =>
    intro cards _
    exact ⟨[], cards, rfl, by simp, rfl⟩
  | succ n ih =>
    intro cards hk
    have hne : cards ≠ [] := by
      intro h; rw [h] at hk; simp at hk
    have hlen : n ≤ cards.dropLast.length := by
      rw [List.length_dropLast]; omega
    obtain ⟨drawn, rest, hd, hsplit, hl⟩ := ih cards.dropLast hlen
    refine ⟨cards.getLast hne :: drawn, rest, ?_, ?_, by simp [hl]⟩
    · unfold drawMany
      rw [draw_of_ne_nil cards hne]
      simp only [hd, Option.map_some']
    · rw [List.reverse_cons, ← List.append_assoc, ← hsplit]
      exact (List.dropLast_append_getLast hne).symm

/-- C15: for a deck holding a permutation of the 52 distinct cards and `k ≤ 52`, `k`
successive calls of `draw` all return a card; afterwards exactly `52 - k` cards remain, the
`k` drawn cards are pairwise distinct, and none of them is among the remaining cards. -/
theorem C15_draw_without_replacement (cards : List Card) (hperm : cards.Perm orderedDeck)
    (k : Nat) (hk : k ≤ 52) :
    ∃ drawn rest, drawMany k cards = some (drawn, rest) ∧
      rest.length = 52 - k ∧ drawn.length = k ∧ drawn.Nodup ∧
      (∀ c ∈ drawn, c ∉ rest) ∧ (rest ++ drawn.reverse = cards) := by
  have hlen : cards.length = 52 := by rw [hperm.length_eq]; decide
  have hnd : cards.Nodup := hperm.nodup_iff.mpr orderedDeck_nodup
  obtain ⟨drawn, rest, hd, hsplit, hl⟩ := drawMany_spec k cards (by omega)
  refine ⟨drawn, rest, hd, ?_, hl, ?_, ?_, hsplit.symm⟩
  · have := congrArg List.length hsplit
    simp only [List.length_append, List.length_reverse] at this
    omega
  · rw [hsplit, List.nodup_append] at hnd
    exact List.nodup_reverse.mp hnd.2.1
  · rw [hsplit, List.nodup_append] at hnd
    intro c hc hr
    exact hnd.2.2 hr (List.mem_reverse.mpr hc)

theorem C15_draw_without_replacement_witness :
    ∃ drawn rest, drawMany 9 orderedDeck = some (drawn, rest) ∧
      rest.length = 52 - 9 ∧ drawn.length = 9 ∧ drawn.Nodup ∧
      (∀ c ∈ drawn, c ∉ rest) ∧ (rest ++ drawn.reverse = orderedDeck) :=
  C15_draw_without_replacement orderedDeck (List.Perm.refl _) 9 (by decide)

/-- C16 (as stated, refuted): `draw` on a deck with no remaining cards does not end in an
exhausted-deck failure that leaves the deck empty. -/
theorem C16_no_exhausted_failure : Deck.draw [] ≠ DrawOutcome.exhausted [] := by
  decide

/-- C16 (amended): `draw` has no exhausted-deck test.  On a deck with no remaining cards its
behaviour is undefined, no call of `draw` on any deck ends in an exhausted-deck failure, and
on a deck with at least one card it returns the last card and removes it. -/
theorem C16_draw_on_empty_is_undefined :
    Deck.draw [] = DrawOutcome.undefined ∧
    (∀ cards remaining, Deck.draw cards ≠ DrawOutcome.exhausted remaining) ∧
    (∀ (cards : List Card) (c : Card),
      Deck.draw (cards ++ [c]) = DrawOutcome.drawn c cards) := by
  refine ⟨rfl, ?_, ?_⟩
  · intro cards remaining
    unfold Deck.draw
    cases cards.getLast? <;> simp
  · intro cards c
    unfold Deck.draw
    simp

/-! ## Showdown: the winners list -/

theorem showdownLoop_spec : ∀ (rest pre : List EvalResult) (best : EvalResult) (winners : List Nat),
    best ∈ pre →
    (∀ r ∈ pre, r.gt best = false) →
    winners.Pairwise (· < ·) →
    (∀ j, j ∈ winners ↔ pre[j]? = some best) →
    ∃ best2 winners2, showdownLoop rest pre.length best winners = (best2, winners2) ∧
      best2 ∈ pre ++ rest ∧
      (∀ r ∈ pre ++ rest, r.gt best2 = false) ∧
      winners2.Pairwise (· < ·) ∧
      (∀ j, j ∈ winners2 ↔ (pre ++ rest)[j]? = some best2) := by
  intro rest
  induction rest with
  | nil =>
    intro pre best winners hb hmax hw hmem
    exact ⟨best, winners, rfl, by simpa using hb, by simpa using hmax, hw, by simpa using hmem⟩
  | cons r rest ih =>
    intro pre best winners hb hmax hw hmem
    have hlen : (pre ++ [r]).length = pre.length + 1 := by simp
    have happ : pre ++ r :: rest = (pre ++ [r]) ++ rest := by simp
    have hlt : ∀ j ∈ winners, j < pre.length := by
      intro j hj
      have := (hmem j).mp hj
      exact (List.getElem?_eq_some.mp this).1
    unfold showdownLoop
    by_cases hg : r.gt best = true
    · rw [if_pos hg, happ, ← hlen]
      apply ih (pre ++ [r]) r [pre.length]
      · simp
      · intro x hx
        rcases List.mem_append.mp hx with hx | hx
        · by_contra hcon
          have h1 : x.gt r = true := by simpa using hcon
          have h2 := EvalResult.gt_trans x r best h1 hg
          rw [hmax x hx] at h2
          exact Bool.false_ne_true h2
        · simp only [List.mem_singleton] at hx
          rw [hx]; exact EvalResult.gt_irrefl r
      · simp
      · intro j
        simp only [List.mem_singleton]
        constructor
        · intro hj
          rw [hj]; simp
        · intro hj
          by_contra hne
          have hjl : j < (pre ++ [r]).length := (List.getElem?_eq_some.mp hj).1
          have hjp : j < pre.length := by rw [hlen] at hjl; omega
          rw [List.getElem?_append_left hjp] at hj
          have hrp : r ∈ pre := List.getElem?_mem hj
          rw [hmax r hrp] at hg
          exact Bool.false_ne_true hg
    · rw [if_neg hg]
      by_cases he : r.eq best = true
      · have hrb : r = best := (EvalResult.eq_iff r best).mp he
        rw [if_pos he, happ, ← hlen]
        apply ih (pre ++ [r]) best (winners ++ [pre.length])
        · exact List.mem_append_left _ hb
        · intro x hx
          rcases List.mem_append.mp hx with hx | hx
          · exact hmax x hx
          · simp only [List.mem_singleton] at hx
            rw [hx, hrb]; exact EvalResult.gt_irrefl best
        · rw [List.pairwise_append]
          refine ⟨hw, by simp, ?_⟩
          intro a ha b hb2
          simp only [List.mem_singleton] at hb2
          rw [hb2]; exact hlt a ha
        · intro j
          rw [List.mem_append, List.mem_singleton, hmem j]
          constructor
          · rintro (hj | hj)
            · have hjp : j < pre.length := (List.getElem?_eq_some.mp hj).1
              rw [List.getElem?_append_left hjp]; exact hj
            · rw [hj, hrb]; simp
          · intro hj
            by_cases hjp : j < pre.length
            · left; rw [List.getElem?_append_left hjp] at hj; exact hj
            · right
              have hjl : j < (pre ++ [r]).length := (List.getElem?_eq_some.mp hj).1
              rw [hlen] at hjl; omega
      · rw [if_neg he, happ, ← hlen]
        have hrb : r ≠ best := fun h => he ((EvalResult.eq_iff r best).mpr h)
        apply ih (pre ++ [r]) best winners
        · exact List.mem_append_left _ hb
        · intro x hx
          rcases List.mem_append.mp hx with hx | hx
          · exact hmax x hx
          · simp only [List.mem_singleton] at hx
            rw [hx]; simpa using hg
        · exact hw
        · intro j
          rw [hmem j]
          constructor
          · intro hj
            have hjp : j < pre.length := (List.getElem?_eq_some.mp hj).1
            rw [List.getElem?_append_left hjp]; exact hj
          · intro hj
            by_cases hjp : j < pre.length
            · rw [List.getElem?_append_left hjp] at hj; exact hj
            · exfalso
              have hjl : j < (pre ++ [r]).length := (List.getElem?_eq_some.mp hj).1
              have hje : j = pre.length := by rw [hlen] at hjl; omega
              rw [hje] at hj
              simp at hj
              exact hrb hj


theorem showdown_spec (results : List EvalResult) (hne : results ≠ []) :
    ∃ best winners, showdown results = some (best, winners) ∧
      best ∈ results ∧ (∀ r ∈ results, r.gt best = false) ∧
      winners.Pairwise (· < ·) ∧ (∀ j, j ∈ winners ↔ results[j]? = some best) := by
  cases results with
  | nil => exact absurd rfl hne
  | cons r0 rest =>
    obtain ⟨best, winners, h, hb, hmax, hw, hmem⟩ := showdownLoop_spec rest [r0] r0 [0]
      (by simp) (by intro r hr; simp only [List.mem_singleton] at hr; rw [hr];
                    exact EvalResult.gt_irrefl r0)
      (by simp)
      (by
        intro j
        simp only [List.mem_singleton]
        constructor
        · intro hj; rw [hj]; rfl
        · intro hj
          have := (List.getElem?_eq_some.mp hj).1
          simp only [List.length_cons, List.length_nil] at this
          omega)
    refine ⟨best, winners, ?_, hb, hmax, hw, hmem⟩
    simp only [showdown]
    exact congrArg some h

/-- C13: for a non-empty list of results, the showdown loop returns a `winners` list without
repetition that holds exactly the indices whose result no result in the list exceeds under
`operator>`; two different players with the same unbeaten result are both in `winners`, which
then has more than one entry, so the tie branch is taken. -/
theorem C13_showdown_winners (results : List EvalResult) (hne : results ≠ []) :
    ∃ best winners, showdown results = some (best, winners) ∧ winners.Nodup ∧
      (∀ i, i ∈ winners ↔
        ∃ ri, results[i]? = some ri ∧ ∀ (j : Nat) (rj : EvalResult), results[j]? = some rj → rj.gt ri = false) ∧
      (∀ i j ri, i ≠ j → results[i]? = some ri → results[j]? = some ri →
        (∀ (k : Nat) (rk : EvalResult), results[k]? = some rk → rk.gt ri = false) →
        i ∈ winners ∧ j ∈ winners ∧ winners.length ≠ 1) := by
  obtain ⟨best, winners, h, hb, hmax, hw, hmem⟩ := showdown_spec results hne
  have hnd : winners.Nodup := hw.imp (fun h => Nat.ne_of_lt h)
  have hiff : ∀ i, i ∈ winners ↔
      ∃ ri, results[i]? = some ri ∧ ∀ (j : Nat) (rj : EvalResult), results[j]? = some rj → rj.gt ri = false := by
    intro i
    rw [hmem i]
    constructor
    · intro hi
      exact ⟨best, hi, fun j rj hj => hmax rj (List.getElem?_mem hj)⟩
    · rintro ⟨ri, hi, hun⟩
      obtain ⟨k, hk⟩ := List.mem_iff_getElem?.mp hb
      have h1 : best.gt ri = false := hun k best hk
      have h2 : ri.gt best = false := hmax ri (List.getElem?_mem hi)
      rw [hi, EvalResult.eq_of_not_gt ri best h2 h1]
  refine ⟨best, winners, h, hnd, hiff, ?_⟩
  intro i j ri hij hi hj hun
  have wi : i ∈ winners := (hiff i).mpr ⟨ri, hi, hun⟩
  have wj : j ∈ winners := (hiff j).mpr ⟨ri, hj, hun⟩
  refine ⟨wi, wj, ?_⟩
  intro hl
  obtain ⟨x, hx⟩ := List.length_eq_one.mp hl
  rw [hx] at wi wj
  simp only [List.mem_singleton] at wi wj
  exact hij (wi.trans wj.symm)

theorem C13_showdown_winners_witness :
    ∃ best winners,
      showdown [⟨.FLUSH, [9, 7, 5, 3, 2]⟩, ⟨.FULL_HOUSE, [3, 2]⟩, ⟨.FULL_HOUSE, [3, 2]⟩] =
        some (best, winners) ∧ winners.Nodup ∧
      (∀ i, i ∈ winners ↔
        ∃ ri, [(⟨.FLUSH, [9, 7, 5, 3, 2]⟩ : EvalResult), ⟨.FULL_HOUSE, [3, 2]⟩,
            ⟨.FULL_HOUSE, [3, 2]⟩][i]? = some ri ∧
          ∀ (j : Nat) (rj : EvalResult), [(⟨.FLUSH, [9, 7, 5, 3, 2]⟩ : EvalResult), ⟨.FULL_HOUSE, [3, 2]⟩,
            ⟨.FULL_HOUSE, [3, 2]⟩][j]? = some rj → rj.gt ri = false) :=
  let ⟨best, winners, h, hnd, hiff, _⟩ := C13_showdown_winners
    [⟨.FLUSH, [9, 7, 5, 3, 2]⟩, ⟨.FULL_HOUSE, [3, 2]⟩, ⟨.FULL_HOUSE, [3, 2]⟩] (by decide)
  ⟨best, winners, h, hnd, hiff⟩

/-! ## Four of a kind in seven cards -/

set_option maxHeartbeats 1000000 in
theorem classifySorted_le_quad (r1 r2 r3 r4 r5 q k : Nat)
    (h12 : r2 ≤ r1) (h23 : r3 ≤ r2) (h34 : r4 ≤ r3) (h45 : r5 ≤ r4)
    (hpair : (r1 = q ∧ r2 = q) ∨ (r2 = q ∧ r3 = q) ∨ (r3 = q ∧ r4 = q) ∨ (r4 = q ∧ r5 = q))
    (hk1 : r1 ≠ q → r1 ≤ k) (hk5 : r5 ≠ q → r5 ≤ k) :
    (classifySorted false r1 r2 r3 r4 r5).gt ⟨.FOUR_OF_A_KIND, [(q : Int), (k : Int)]⟩ =
      false := by
  unfold classifySorted
  by_cases hs : ((r1 = r2 + 1 ∧ r2 = r3 + 1 ∧ r3 = r4 + 1 ∧ r4 = r5 + 1) ∨
        (r1 = 14 ∧ r2 = 5 ∧ r3 = 4 ∧ r4 = 3 ∧ r5 = 2)) <;>
  rcases Nat.eq_or_lt_of_le h12 with e12 | l12 <;>
  rcases Nat.eq_or_lt_of_le h23 with e23 | l23 <;>
  rcases Nat.eq_or_lt_of_le h34 with e34 | l34 <;>
  rcases Nat.eq_or_lt_of_le h45 with e45 | l45
  all_goals try (exfalso; omega)
  all_goals simp only [Bool.false_eq_true, false_and, true_and, if_false, if_true, hs]
  all_goals try simp (disch := omega) only [if_pos, if_neg]
  all_goals simp only [EvalResult.gt, vectorLess, ne_eq, not_true_eq_false, if_false,
    reduceCtorEq, not_false_eq_true, if_true, HandRank.toNat, gt_iff_lt, Nat.reduceLT,
    decide_False]
  all_goals try (split_ifs <;> first | rfl | omega)



theorem mem_quadCards (c : Card) (q : Nat) : c ∈ quadCards q ↔ c.rank = q := by
  obtain ⟨r, s⟩ := c
  simp only [quadCards, List.mem_cons, List.mem_singleton, List.not_mem_nil, or_false,
    Card.mk.injEq]
  constructor
  · rintro (h | h | h | h) <;> exact h.1
  · intro h
    cases s <;> simp [h]

theorem quadCards_nodup (q : Nat) : (quadCards q).Nodup := by
  simp [quadCards]

theorem filter_rank_length (seven : List Card) (hnd : seven.Nodup) (q : Nat)
    (hq : ∀ s : Suit, (⟨q, s⟩ : Card) ∈ seven) :
    (seven.filter (fun c => decide (c.rank = q))).length = 4 := by
  have hperm : (seven.filter (fun c => decide (c.rank = q))).Perm (quadCards q) := by
    rw [List.perm_ext_iff_of_nodup (hnd.filter _) (quadCards_nodup q)]
    intro c
    rw [mem_quadCards, List.mem_filter]
    simp only [decide_eq_true_eq]
    constructor
    · exact fun h => h.2
    · intro h
      obtain ⟨r, s⟩ := c
      simp only at h
      subst h
      exact ⟨hq s, rfl⟩
  rw [hperm.length_eq]
  rfl

theorem two_of_rank_in_five (seven : List Card) (hlen : seven.length = 7) (hnd : seven.Nodup)
    (q : Nat) (hq : ∀ s : Suit, (⟨q, s⟩ : Card) ∈ seven)
    (five : List Card) (hsub : five.Sublist seven) (h5 : five.length = 5) :
    ∃ x y, x ∈ five ∧ y ∈ five ∧ x ≠ y ∧ x.rank = q ∧ y.rank = q := by
  have h4 := filter_rank_length seven hnd q hq
  have hs7 := List.length_eq_countP_add_countP (fun c : Card => decide (c.rank = q)) seven
  have hs5 := List.length_eq_countP_add_countP (fun c : Card => decide (c.rank = q)) five
  have hle : List.countP (fun c : Card => decide ¬ (decide (c.rank = q) = true)) five ≤
      List.countP (fun c : Card => decide ¬ (decide (c.rank = q) = true)) seven :=
    hsub.countP_le _
  rw [List.countP_eq_length_filter] at hs7 hs5
  have h2 : 2 ≤ (five.filter (fun c => decide (c.rank = q))).length := by omega
  have hnd5 : (five.filter (fun c => decide (c.rank = q))).Nodup :=
    (hnd.sublist hsub).filter _
  have hmem : ∀ c, c ∈ five.filter (fun c => decide (c.rank = q)) → c ∈ five ∧ c.rank = q := by
    intro c hc
    rw [List.mem_filter] at hc
    exact ⟨hc.1, by simpa using hc.2⟩
  generalize five.filter (fun c => decide (c.rank = q)) = fl at h2 hnd5 hmem
  match fl, h2, hnd5, hmem with
  | [], h, _, _ => simp at h
  | [_], h, _, _ => simp at h
  | x :: y :: rest, _, hndf, hmem =>
    have hx := hmem x (by simp)
    have hy := hmem y (by simp)
    refine ⟨x, y, hx.1, hy.1, ?_, hx.2, hy.2⟩
    intro hxy
    rw [hxy] at hndf
    simp at hndf


theorem five_le_quad (seven : List Card) (hlen : seven.length = 7) (hnd : seven.Nodup)
    (q : Nat) (hq : ∀ s : Suit, (⟨q, s⟩ : Card) ∈ seven) (k : Nat)
    (hmax : ∀ c ∈ seven, c.rank ≠ q → c.rank ≤ k)
    (five : List Card) (hsub : five.Sublist seven) (h5 : five.length = 5)
    (r : EvalResult) (he : evaluateFive five = some r) :
    r.gt ⟨.FOUR_OF_A_KIND, [(q : Int), (k : Int)]⟩ = false := by
  obtain ⟨a, b, c, d, e, hperm, h1, h2, h3, h4, htab⟩ := evaluateFive_table five h5
  obtain ⟨x, y, hx, hy, hxy, hxq, hyq⟩ := two_of_rank_in_five seven hlen hnd q hq five hsub h5
  have hfl : checkFlush five = false := by
    by_contra hcon
    have hf : checkFlush five = true := by simpa using hcon
    rw [checkFlush_iff] at hf
    exact rank_ne_of_ne_of_suit x y hxy (hf x hx y hy) (hxq.trans hyq.symm)
  have hx5 : x ∈ [a, b, c, d, e] := hperm.symm.subset hx
  have hy5 : y ∈ [a, b, c, d, e] := hperm.symm.subset hy
  have hpair : (a.rank = q ∧ b.rank = q) ∨ (b.rank = q ∧ c.rank = q) ∨
      (c.rank = q ∧ d.rank = q) ∨ (d.rank = q ∧ e.rank = q) := by
    simp only [List.mem_cons, List.mem_singleton, List.not_mem_nil, or_false] at hx5 hy5
    rcases hx5 with rfl | rfl | rfl | rfl | rfl <;>
    rcases hy5 with rfl | rfl | rfl | rfl | rfl <;>
    first | (exact absurd rfl hxy) | omega
  have hk1 : a.rank ≠ q → a.rank ≤ k :=
    hmax a (hsub.subset (hperm.subset (by simp)))
  have hk5 : e.rank ≠ q → e.rank ≤ k :=
    hmax e (hsub.subset (hperm.subset (by simp)))
  rw [htab, hfl] at he
  simp only [Option.some.injEq] at he
  rw [← he]
  exact classifySorted_le_quad _ _ _ _ _ q k h1 h2 h3 h4 hpair hk1 hk5

set_option maxHeartbeats 1000000 in
theorem evaluateFive_quad (q k : Nat) (sk : Suit) (hne : k ≠ q) :
    evaluateFive [⟨q, .SPADES⟩, ⟨q, .HEARTS⟩, ⟨q, .DIAMONDS⟩, ⟨q, .CLUBS⟩, ⟨k, sk⟩] =
      some ⟨.FOUR_OF_A_KIND, [(q : Int), (k : Int)]⟩ := by
  rcases Nat.lt_or_gt_of_ne hne with hlt | hgt
  · have hsorted : List.Pairwise (fun a b : Card => b.rank ≤ a.rank)
        [⟨q, .SPADES⟩, ⟨q, .HEARTS⟩, ⟨q, .DIAMONDS⟩, ⟨q, .CLUBS⟩, ⟨k, sk⟩] := by
      simp; omega
    rw [← evaluateSorted_of_sorted_perm _ _ (by rfl) (List.Perm.refl _) hsorted]
    rw [evaluateSorted_table q q q q k _ _ _ _ _ (by omega) (by omega) (by omega) (by omega)]
    have hfl : checkFlush [(⟨q, .SPADES⟩ : Card), ⟨q, .HEARTS⟩, ⟨q, .DIAMONDS⟩, ⟨q, .CLUBS⟩,
        ⟨k, sk⟩] = false := by
      simp [checkFlush]
    rw [hfl]
    unfold classifySorted
    simp only [Bool.false_eq_true, false_and, if_false]
    simp (disch := omega) only [if_pos, if_neg]
    try simp (disch := omega) only [if_pos, if_neg, true_and, if_true, ne_eq]
  · have hsorted : List.Pairwise (fun a b : Card => b.rank ≤ a.rank)
        [⟨k, sk⟩, ⟨q, .SPADES⟩, ⟨q, .HEARTS⟩, ⟨q, .DIAMONDS⟩, ⟨q, .CLUBS⟩] := by
      simp; omega
    have hperm : List.Perm [(⟨k, sk⟩ : Card), ⟨q, .SPADES⟩, ⟨q, .HEARTS⟩, ⟨q, .DIAMONDS⟩,
        ⟨q, .CLUBS⟩] [⟨q, .SPADES⟩, ⟨q, .HEARTS⟩, ⟨q, .DIAMONDS⟩, ⟨q, .CLUBS⟩, ⟨k, sk⟩] :=
      (List.perm_append_singleton (⟨k, sk⟩ : Card)
        [⟨q, .SPADES⟩, ⟨q, .HEARTS⟩, ⟨q, .DIAMONDS⟩, ⟨q, .CLUBS⟩]).symm
    rw [← evaluateSorted_of_sorted_perm _ _ (by rfl) hperm hsorted]
    rw [evaluateSorted_table k q q q q _ _ _ _ _ (by omega) (by omega) (by omega) (by omega)]
    have hfl : checkFlush [(⟨k, sk⟩ : Card), ⟨q, .SPADES⟩, ⟨q, .HEARTS⟩, ⟨q, .DIAMONDS⟩,
        ⟨q, .CLUBS⟩] = false := by
      cases sk <;> simp [checkFlush]
    rw [hfl]
    unfold classifySorted
    simp only [Bool.false_eq_true, false_and, if_false]
    simp (disch := omega) only [if_pos, if_neg]
    try simp (disch := omega) only [if_pos, if_neg, true_and, if_true, ne_eq]

/-! ## Claims on `evaluateFive` and `getBestFive`, continued -/

set_option maxRecDepth 100000 in
/-- C11: seven pairwise-distinct cards that contain all four cards of a rank `q` give
FOUR_OF_A_KIND with tie-break vector `[q, k]`, where `k` is the highest rank among the other
three cards; hole cards 2♣ 2♦ with board 2♥ 2♠ 9♣ 9♦ 5♥ give FOUR_OF_A_KIND with `[2, 9]`. -/
theorem C11_four_of_a_kind (seven : List Card) (hlen : seven.length = 7) (hnd : seven.Nodup)
    (q : Nat) (hq : ∀ s : Suit, (⟨q, s⟩ : Card) ∈ seven)
    (k : Nat) (hk : ∃ c ∈ seven, c.rank ≠ q ∧ c.rank = k)
    (hmax : ∀ c ∈ seven, c.rank ≠ q → c.rank ≤ k) :
    getBestFive seven = some ⟨.FOUR_OF_A_KIND, [(q : Int), (k : Int)]⟩ ∧
    getBestFive exampleQuadSeven = some ⟨.FOUR_OF_A_KIND, [2, 9]⟩ := by
  refine ⟨?_, by decide⟩
  obtain ⟨⟨rk, sk⟩, hck, hne, hkr⟩ := hk
  simp only at hne hkr
  subst hkr
  have hnd5 : List.Nodup [(⟨q, .SPADES⟩ : Card), ⟨q, .HEARTS⟩, ⟨q, .DIAMONDS⟩, ⟨q, .CLUBS⟩,
      ⟨rk, sk⟩] := by
    simp only [List.nodup_cons, List.mem_cons, List.mem_singleton, Card.mk.injEq,
      List.not_mem_nil, List.nodup_nil, and_true, not_or, not_and, reduceCtorEq,
      not_false_eq_true, implies_true, true_and, or_false]
    refine ⟨?_, ?_, ?_, ?_⟩ <;> intro h <;> exact absurd h.symm hne
  have hsub : ∀ c ∈ [(⟨q, .SPADES⟩ : Card), ⟨q, .HEARTS⟩, ⟨q, .DIAMONDS⟩, ⟨q, .CLUBS⟩,
      ⟨rk, sk⟩], c ∈ seven := by
    intro c hc
    simp only [List.mem_cons, List.mem_singleton, List.not_mem_nil, or_false] at hc
    rcases hc with rfl | rfl | rfl | rfl | rfl
    · exact hq _
    · exact hq _
    · exact hq _
    · exact hq _
    · exact hck
  exact getBestFive_eq_of_max seven hlen _ _ (List.subperm_of_subset hnd5 hsub) rfl
    (evaluateFive_quad q rk sk hne)
    (fun f2 r2 hs2 hl2 he2 => five_le_quad seven hlen hnd q hq rk hmax f2 hs2 hl2 r2 he2)

theorem C11_four_of_a_kind_witness :
    getBestFive [⟨SEVEN, .CLUBS⟩, ⟨KING, .HEARTS⟩, ⟨SEVEN, .HEARTS⟩, ⟨ACE, .HEARTS⟩,
        ⟨SEVEN, .SPADES⟩, ⟨SEVEN, .DIAMONDS⟩, ⟨JACK, .HEARTS⟩] =
      some ⟨.FOUR_OF_A_KIND, [((7 : Nat) : Int), ((14 : Nat) : Int)]⟩ :=
  (C11_four_of_a_kind [⟨SEVEN, .CLUBS⟩, ⟨KING, .HEARTS⟩, ⟨SEVEN, .HEARTS⟩, ⟨ACE, .HEARTS⟩,
    ⟨SEVEN, .SPADES⟩, ⟨SEVEN, .DIAMONDS⟩, ⟨JACK, .HEARTS⟩] rfl (by decide) 7
    (by intro s; cases s <;> decide) 14 (by decide) (by decide)).1

/-- C17: on every list of exactly five cards (repeated ranks or cards included) `evaluateFive`
reads no index out of range and returns a result in one of the ten categories: the sorted hand
has five entries, the counts of the sorted frequency list form one of the seven partitions of
five, so `freq[0]` exists and `freq[1]`, `freq[2]`, `freq[3]` exist in the branches that read
them, and the result is `some r`. -/
theorem C17_evaluateFive_total (hand : List Card) (hlen : hand.length = 5) :
    (stdSort rankBefore hand).length = 5 ∧
    (stdSort freqBefore (countRanks (stdSort rankBefore hand))).map Prod.snd ∈
      [[5], [4, 1], [3, 2], [3, 1, 1], [2, 2, 1], [2, 1, 1, 1], [1, 1, 1, 1, 1]] ∧
    (∃ f0, (stdSort freqBefore (countRanks (stdSort rankBefore hand)))[0]? = some f0 ∧
      (f0.2 = 4 → 2 ≤ (stdSort freqBefore (countRanks (stdSort rankBefore hand))).length) ∧
      (f0.2 = 3 → ∃ f1,
        (stdSort freqBefore (countRanks (stdSort rankBefore hand)))[1]? = some f1 ∧
        (f1.2 ≠ 2 → 3 ≤ (stdSort freqBefore (countRanks (stdSort rankBefore hand))).length)) ∧
      (f0.2 = 2 → ∃ f1,
        (stdSort freqBefore (countRanks (stdSort rankBefore hand)))[1]? = some f1 ∧
        (f1.2 = 2 → 3 ≤ (stdSort freqBefore (countRanks (stdSort rankBefore hand))).length) ∧
        (f1.2 ≠ 2 → 4 ≤ (stdSort freqBefore (countRanks (stdSort rankBefore hand))).length))) ∧
    (∃ r, evaluateFive hand = some r ∧
      r.handType ∈ [HandRank.HIGH_CARD, .ONE_PAIR, .TWO_PAIR, .THREE_OF_A_KIND, .STRAIGHT,
        .FLUSH, .FULL_HOUSE, .FOUR_OF_A_KIND, .STRAIGHT_FLUSH, .ROYAL_FLUSH]) := by
  refine ⟨by rw [(stdSort_perm rankBefore hand).length_eq, hlen], freq_counts_hand hand hlen,
    freq_reads_in_range _ (freq_counts_hand hand hlen), ?_⟩
  obtain ⟨r, hr⟩ := evaluateFive_isSome hand hlen
  refine ⟨r, hr, ?_⟩
  cases r.handType <;> decide

theorem C17_evaluateFive_total_witness :
    ∃ r, evaluateFive [⟨NINE, .CLUBS⟩, ⟨NINE, .CLUBS⟩, ⟨NINE, .CLUBS⟩, ⟨NINE, .CLUBS⟩,
        ⟨NINE, .CLUBS⟩] = some r ∧
      r.handType ∈ [HandRank.HIGH_CARD, .ONE_PAIR, .TWO_PAIR, .THREE_OF_A_KIND, .STRAIGHT,
        .FLUSH, .FULL_HOUSE, .FOUR_OF_A_KIND, .STRAIGHT_FLUSH, .ROYAL_FLUSH] :=
  (C17_evaluateFive_total [⟨NINE, .CLUBS⟩, ⟨NINE, .CLUBS⟩, ⟨NINE, .CLUBS⟩, ⟨NINE, .CLUBS⟩,
    ⟨NINE, .CLUBS⟩] rfl).2.2.2

/-- C18: for a five-card hand in any order, the straight flag that `evaluateFive` computes,
`checkStraight` on the hand sorted by rank descending, is defined, and it is true if and only
if the five ranks are five consecutive values `r + 4, r + 3, r + 2, r + 1, r` or are exactly
Ace, 5, 4, 3, 2. -/
theorem C18_straight_flag (hand : List Card) (hlen : hand.length = 5) :
    ∃ b, checkStraight (stdSort rankBefore hand) = some b ∧
      (b = true ↔
        ((∃ r, (hand.map Card.rank).Perm [r + 4, r + 3, r + 2, r + 1, r]) ∨
          (hand.map Card.rank).Perm [ACE, FIVE, FOUR, THREE, TWO])) := by
  have hperm := stdSort_perm rankBefore hand
  have hsorted := stdSort_rank_sorted hand
  obtain ⟨a, b, c, d, e, hs⟩ := length_five_cases (stdSort rankBefore hand)
    (by rw [hperm.length_eq, hlen])
  rw [hs] at hperm hsorted ⊢
  have hranks : [a.rank, b.rank, c.rank, d.rank, e.rank].Perm (hand.map Card.rank) :=
    hperm.map Card.rank
  have hsr : [a.rank, b.rank, c.rank, d.rank, e.rank].Sorted (· ≥ ·) := by
    have := hsorted
    simp only [List.pairwise_cons, List.mem_cons, List.mem_singleton, forall_eq_or_imp,
      forall_eq, List.not_mem_nil, IsEmpty.forall_iff, implies_true, List.Pairwise.nil,
      and_true] at this
    simp only [List.Sorted, List.pairwise_cons, List.mem_cons, List.mem_singleton,
      forall_eq_or_imp, forall_eq, List.not_mem_nil, IsEmpty.forall_iff, implies_true,
      List.Pairwise.nil, and_true, ge_iff_le]
    exact this
  obtain ⟨r1, s1⟩ := a
  obtain ⟨r2, s2⟩ := b
  obtain ⟨r3, s3⟩ := c
  obtain ⟨r4, s4⟩ := d
  obtain ⟨r5, s5⟩ := e
  refine ⟨_, checkStraight_five r1 r2 r3 r4 r5 s1 s2 s3 s4 s5, ?_⟩
  simp only [decide_eq_true_eq]
  constructor
  · rintro (⟨e1, e2, e3, e4⟩ | ⟨e1, e2, e3, e4, e5⟩)
    · left
      refine ⟨r5, ?_⟩
      have : [r5 + 4, r5 + 3, r5 + 2, r5 + 1, r5] = [r1, r2, r3, r4, r5] := by
        simp only [List.cons.injEq, and_true]; omega
      rw [this]
      exact hranks.symm
    · right
      have : [ACE, FIVE, FOUR, THREE, TWO] = [r1, r2, r3, r4, r5] := by
        simp only [ACE, FIVE, FOUR, THREE, TWO, List.cons.injEq, and_true]; omega
      rw [this]
      exact hranks.symm
  · rintro (⟨r, hr⟩ | hw)
    · left
      have hs2 : [r + 4, r + 3, r + 2, r + 1, r].Sorted (· ≥ ·) := by
        simp only [List.Sorted, List.pairwise_cons, List.mem_cons, List.mem_singleton,
          forall_eq_or_imp, forall_eq, List.not_mem_nil, IsEmpty.forall_iff, implies_true,
          List.Pairwise.nil, and_true, ge_iff_le]
        omega
      have := List.eq_of_perm_of_sorted (hranks.trans hr) hsr hs2
      simp only [List.cons.injEq, and_true] at this
      omega
    · right
      have hs2 : [ACE, FIVE, FOUR, THREE, TWO].Sorted (· ≥ ·) := by decide
      have := List.eq_of_perm_of_sorted (hranks.trans hw) hsr hs2
      simp only [ACE, FIVE, FOUR, THREE, TWO, List.cons.injEq, and_true] at this
      omega

theorem C18_straight_flag_witness :
    ∃ b, checkStraight (stdSort rankBefore wheelHand) = some b ∧
      (b = true ↔
        ((∃ r, (wheelHand.map Card.rank).Perm [r + 4, r + 3, r + 2, r + 1, r]) ∨
          (wheelHand.map Card.rank).Perm [ACE, FIVE, FOUR, THREE, TWO])) :=
  C18_straight_flag wheelHand rfl

/-! ## The calls of the loop of `getBestFive` -/

theorem getBestFiveTrace_fst (seven : List Card) :
    ∀ (fuel : Nat) (m : List Nat) (best : EvalResult),
      (getBestFiveTrace seven fuel m best).map Prod.fst = getBestFiveLoop seven fuel m best := by
  intro fuel
  induction fuel with
  | zero => intro m best; rfl
  | succ n ih =>
    intro m best
    unfold getBestFiveTrace getBestFiveLoop
    cases selectCards seven m with
    | none => rfl
    | some current =>
      simp only [Option.some_bind]
      cases evaluateFive current with
      | none => rfl
      | some res =>
        simp only [Option.some_bind]
        rcases prevPermutation m with ⟨flag, next⟩
        cases flag with
        | true =>
          simp only [Option.map_map]
          exact ih next _
        | false => rfl

theorem getBestFiveTrace_calls (seven : List Card) :
    ∀ (fuel : Nat) (m : List Nat) (ms : List (List Nat)) (best : EvalResult),
      maskRun fuel m = some ms →
      (∀ m2 ∈ ms, ∃ cur, selectCards seven m2 = some cur ∧ cur.length = 5) →
      ∃ b, getBestFiveTrace seven fuel m best =
        some (b, ms.filterMap (selectCards seven)) := by
  intro fuel
  induction fuel with
  | zero => intro m ms best h; simp [maskRun] at h
  | succ n ih =>
    intro m ms best h hsel
    unfold maskRun at h
    unfold getBestFiveTrace
    rcases hp : prevPermutation m with ⟨flag, next⟩
    rw [hp] at h
    cases flag with
    | true =>
      simp only [Option.map_eq_some'] at h
      obtain ⟨ms2, hms2, rfl⟩ := h
      obtain ⟨cur, hcur, hl⟩ := hsel m (List.mem_cons_self _ _)
      obtain ⟨res, hres⟩ := evaluateFive_isSome cur hl
      obtain ⟨b, hb⟩ := ih next ms2 (if res.gt best then res else best) hms2
        (fun m2 hm2 => hsel m2 (List.mem_cons_of_mem _ hm2))
      refine ⟨b, ?_⟩
      simp only [hcur, hres, Option.some_bind, hb, Option.map_some', List.filterMap_cons]
    | false =>
      simp only [Option.some.injEq] at h
      subst h
      obtain ⟨cur, hcur, hl⟩ := hsel m (List.mem_singleton_self _)
      obtain ⟨res, hres⟩ := evaluateFive_isSome cur hl
      refine ⟨if res.gt best then res else best, ?_⟩
      simp only [hcur, hres, Option.some_bind, List.filterMap_cons, List.filterMap_nil]

theorem getBestFiveTrace_out_of_fuel (seven : List Card) :
    ∀ (fuel : Nat) (m : List Nat) (best : EvalResult),
      maskRun fuel m = none → getBestFiveTrace seven fuel m best = none := by
  intro fuel m best h
  have h1 := getBestFiveTrace_fst seven fuel m best
  rw [getBestFiveLoop_out_of_fuel seven fuel m best h] at h1
  simpa using h1

set_option maxHeartbeats 1000000 in
theorem selected_hands_seven (c0 c1 c2 c3 c4 c5 c6 : Card) :
    masks21.filterMap (selectCards [c0, c1, c2, c3, c4, c5, c6]) =
      (List.sublistsLen 5 [c0, c1, c2, c3, c4, c5, c6]).reverse ∧
    masks21.filterMap (selectCards [c0, c1, c2, c3, c4, c5, c6]) =
      masks21.map (fun m => (maskPositions m).filterMap
        (fun i => [c0, c1, c2, c3, c4, c5, c6][i]?)) ∧
    (∀ m ∈ masks21, selectCards [c0, c1, c2, c3, c4, c5, c6] m =
      some ((maskPositions m).filterMap (fun i => [c0, c1, c2, c3, c4, c5, c6][i]?))) := by
  have hmap : masks21.filterMap (selectCards [c0, c1, c2, c3, c4, c5, c6]) =
      [[c0, c1, c2, c3, c4], [c0, c1, c2, c3, c5], [c0, c1, c2, c3, c6],
       [c0, c1, c2, c4, c5], [c0, c1, c2, c4, c6], [c0, c1, c2, c5, c6],
       [c0, c1, c3, c4, c5], [c0, c1, c3, c4, c6], [c0, c1, c3, c5, c6],
       [c0, c1, c4, c5, c6], [c0, c2, c3, c4, c5], [c0, c2, c3, c4, c6],
       [c0, c2, c3, c5, c6], [c0, c2, c4, c5, c6], [c0, c3, c4, c5, c6],
       [c1, c2, c3, c4, c5], [c1, c2, c3, c4, c6], [c1, c2, c3, c5, c6],
       [c1, c2, c4, c5, c6], [c1, c3, c4, c5, c6], [c2, c3, c4, c5, c6]] := rfl
  refine ⟨?_, rfl, ?_⟩
  · rw [hmap]
    simp [List.sublistsLen_succ_cons]
  · intro m hm
    simp only [masks21, List.mem_cons, List.mem_singleton, List.not_mem_nil, or_false] at hm
    rcases hm with h | h | h | h | h | h | h | h | h | h | h | h | h | h | h | h | h | h | h |
      h | h <;> subst h <;> rfl

theorem getBestFiveTrace_seven (seven : List Card) (hlen : seven.length = 7) :
    ∃ best calls,
      getBestFiveTrace seven 128 initialMask initialBest = some (best, calls) ∧
      getBestFiveTrace seven 21 initialMask initialBest = some (best, calls) ∧
      getBestFiveTrace seven 20 initialMask initialBest = none ∧
      getBestFive seven = some best ∧
      calls.length = 21 ∧
      calls = masks21.map (fun m => (maskPositions m).filterMap (fun i => seven[i]?)) ∧
      (∀ m ∈ masks21,
        selectCards seven m = some ((maskPositions m).filterMap (fun i => seven[i]?))) ∧
      calls = (List.sublistsLen 5 seven).reverse ∧
      calls.Perm (List.sublistsLen 5 seven) ∧
      (∀ c ∈ calls, c.length = 5) := by
  obtain ⟨c0, c1, c2, c3, c4, c5, c6, rfl⟩ := length_seven_cases seven hlen
  obtain ⟨hrev, hpos, hselpos⟩ := selected_hands_seven c0 c1 c2 c3 c4 c5 c6
  have hsel := selectCards_masks21 c0 c1 c2 c3 c4 c5 c6
  obtain ⟨b, hb⟩ := getBestFiveTrace_calls [c0, c1, c2, c3, c4, c5, c6] 128 initialMask masks21
    initialBest maskRun_initialMask hsel
  obtain ⟨b2, hb2⟩ := getBestFiveTrace_calls [c0, c1, c2, c3, c4, c5, c6] 21 initialMask masks21
    initialBest (by decide) hsel
  have h128 := getBestFiveTrace_fst [c0, c1, c2, c3, c4, c5, c6] 128 initialMask initialBest
  have h21 := getBestFiveTrace_fst [c0, c1, c2, c3, c4, c5, c6] 21 initialMask initialBest
  rw [hb, Option.map_some'] at h128
  rw [hb2, Option.map_some',
    getBestFiveLoop_eq_foldMasks _ 21 initialMask masks21 initialBest (by decide),
    ← getBestFive_eq_foldMasks] at h21
  have hbest : getBestFive [c0, c1, c2, c3, c4, c5, c6] = some b := h128.symm
  have hbb : b2 = b := by
    rw [hbest] at h21
    exact Option.some.inj h21
  subst hbb
  refine ⟨b2, _, hb, hb2, ?_, hbest, ?_, hpos, hselpos, hrev, ?_, ?_⟩
  · exact getBestFiveTrace_out_of_fuel _ 20 initialMask initialBest (by decide)
  · rw [hpos]; rfl
  · rw [hrev]; exact List.reverse_perm _
  · intro c hc
    rw [hrev, List.mem_reverse, List.mem_sublistsLen] at hc
    exact hc.2

theorem masks21_positions_nodup : (masks21.map maskPositions).Nodup := by decide

/-- C19: started at 1111100, the loop of `getBestFive` runs exactly 21 iterations (fuel 21
suffices and fuel 20 does not) and then stops; the masks it visits are pairwise different and
are exactly the masks of length seven with entries 0 or 1 and five ones; their position sets
are pairwise different and are the 21 five-element subsets of the seven positions.  On seven
cards the loop calls `evaluateFive` exactly 21 times, once for each visited mask and in that
order, on the cards at the positions of the mask: the hands classified are, each once, the 21
five-card selections by position of the seven cards. -/
theorem C19_loop_visits_21_masks (seven : List Card) (hlen : seven.length = 7) :
    maskRun 21 initialMask = some masks21 ∧ maskRun 20 initialMask = none ∧
    masks21.length = 21 ∧ masks21.Nodup ∧
    (∀ m : List Nat,
      m ∈ masks21 ↔ (m.length = 7 ∧ (∀ b ∈ m, b = 0 ∨ b = 1) ∧ m.count 1 = 5)) ∧
    (masks21.map maskPositions).Perm (List.sublistsLen 5 (List.range 7)) ∧
    (masks21.map maskPositions).Nodup ∧
    (∀ (s : List Card) (best : EvalResult),
      getBestFiveLoop s 21 initialMask best = foldMasks s masks21 best ∧
      getBestFiveLoop s 20 initialMask best = none) ∧
    (∀ s : List Card, getBestFive s = foldMasks s masks21 initialBest) ∧
    (∀ (s : List Card) (fuel : Nat) (m : List Nat) (best : EvalResult),
      (getBestFiveTrace s fuel m best).map Prod.fst = getBestFiveLoop s fuel m best) ∧
    (∃ best calls,
      getBestFiveTrace seven 128 initialMask initialBest = some (best, calls) ∧
      getBestFiveTrace seven 21 initialMask initialBest = some (best, calls) ∧
      getBestFiveTrace seven 20 initialMask initialBest = none ∧
      getBestFive seven = some best ∧
      calls.length = 21 ∧
      calls = masks21.map (fun m => (maskPositions m).filterMap (fun i => seven[i]?)) ∧
      (∀ m ∈ masks21,
        selectCards seven m = some ((maskPositions m).filterMap (fun i => seven[i]?))) ∧
      calls = (List.sublistsLen 5 seven).reverse ∧
      calls.Perm (List.sublistsLen 5 seven) ∧
      (∀ c ∈ calls, c.length = 5)) := by
  refine ⟨by decide, by decide, by decide, by decide, mem_masks21_iff, masks21_positions,
    masks21_positions_nodup, ?_, getBestFive_eq_foldMasks, getBestFiveTrace_fst,
    getBestFiveTrace_seven seven hlen⟩
  intro s best
  exact ⟨getBestFiveLoop_eq_foldMasks s 21 initialMask masks21 best (by decide),
    getBestFiveLoop_out_of_fuel s 20 initialMask best (by decide)⟩

theorem C19_loop_visits_21_masks_witness :
    ∃ best calls,
      getBestFiveTrace exampleSeven 21 initialMask initialBest = some (best, calls) ∧
      getBestFive exampleSeven = some best ∧
      calls.length = 21 ∧
      calls = (List.sublistsLen 5 exampleSeven).reverse :=
  let ⟨best, calls, _, h21, _, hb, hl, _, _, hr, _⟩ :=
    (C19_loop_visits_21_masks exampleSeven rfl).2.2.2.2.2.2.2.2.2.2
  ⟨best, calls, h21, hb, hl, hr⟩

/-- C20: `getBestFive` depends only on the multiset of its seven cards: it returns a result,
and on every permutation of the seven cards it returns the same category and the same
tie-break vector. -/
theorem C20_getBestFive_multiset (seven : List Card) (hlen : seven.length = 7) :
    (∃ best, getBestFive seven = some best) ∧
    (∀ seven2 : List Card, seven2.Perm seven → getBestFive seven2 = getBestFive seven) := by
  refine ⟨?_, ?_⟩
  · obtain ⟨best, hb, _⟩ := getBestFive_max seven hlen
    exact ⟨best, hb⟩
  · intro seven2 hperm
    exact getBestFive_perm seven2 seven (by rw [hperm.length_eq, hlen]) hperm

theorem C20_getBestFive_multiset_witness :
    getBestFive [⟨NINE, .HEARTS⟩, ⟨SIX, .HEARTS⟩, ⟨FIVE, .DIAMONDS⟩, ⟨TWO, .CLUBS⟩,
        ⟨KING, .DIAMONDS⟩, ⟨SEVEN, .HEARTS⟩, ⟨EIGHT, .HEARTS⟩] = getBestFive exampleSeven :=
  (C20_getBestFive_multiset exampleSeven rfl).2 _ (by decide)

set_option maxRecDepth 100000 in
/-- C12: seven cards that contain the 10, J, Q, K and A of one suit, at any positions, give
ROYAL_FLUSH; so do hole cards A♠ K♠ with board Q♠ J♠ 10♠ 2♥ 3♦. -/
theorem C12_royal_flush_found (seven : List Card) (hlen : seven.length = 7) (s : Suit)
    (hroyal : ∀ c ∈ royalCards s, c ∈ seven) :
    (∃ best, getBestFive seven = some best ∧ best.handType = .ROYAL_FLUSH) ∧
    getBestFive exampleRoyalSeven = some ⟨.ROYAL_FLUSH, [14]⟩ := by
  refine ⟨?_, by decide⟩
  obtain ⟨best, hb, _, hall⟩ := getBestFive_max seven hlen
  refine ⟨best, hb, ?_⟩
  have hnd : (royalCards s).Nodup := by cases s <;> decide
  have hsp : (royalCards s).Subperm seven := List.subperm_of_subset hnd hroyal
  have he : evaluateFive (royalCards s) = some ⟨.ROYAL_FLUSH, [14]⟩ := by
    cases s <;> decide
  have h := hall (royalCards s) _ hsp rfl he
  by_contra hne
  have hne2 : HandRank.ROYAL_FLUSH ≠ best.handType := fun h => hne h.symm
  simp only [EvalResult.gt, ne_eq, hne2, not_false_eq_true, if_true, decide_eq_false_iff_not]
    at h
  apply h
  cases hb2 : best.handType <;> first | (exact absurd hb2 hne) | decide

theorem C12_royal_flush_found_witness :
    ∃ best, getBestFive [⟨TWO, .CLUBS⟩, ⟨KING, .HEARTS⟩, ⟨TEN, .HEARTS⟩, ⟨ACE, .HEARTS⟩,
        ⟨TWO, .SPADES⟩, ⟨QUEEN, .HEARTS⟩, ⟨JACK, .HEARTS⟩] = some best ∧
      best.handType = .ROYAL_FLUSH :=
  (C12_royal_flush_found [⟨TWO, .CLUBS⟩, ⟨KING, .HEARTS⟩, ⟨TEN, .HEARTS⟩, ⟨ACE, .HEARTS⟩,
    ⟨TWO, .SPADES⟩, ⟨QUEEN, .HEARTS⟩, ⟨JACK, .HEARTS⟩] rfl .HEARTS (by decide)).1

end Poker
